import Mathlib

/-!
Verification of the MTMediaverse dispatch core against its specification.

The Python sources are embedded shallowly:

* pure helpers (`EventBus._match_parts`, `OrderBuilder.shuffle_tags`, ...)
  become Lean functions on lists and strings;
* the relational store becomes an explicit `DBState` record of rows, with the
  `uq_posting_history` UNIQUE constraint modelled as an explicit check at
  commit time and SQLAlchemy rollback modelled by returning the pre-call state;
* randomness (`random.shuffle`, `random.sample`, `ORDER BY RANDOM()`) is
  modelled by passing the outcome of the draw as an explicit argument, with
  permutation / sublist hypotheses where a theorem needs them;
* the priority queue is the CPython `heapq` binary heap used by
  `queue.PriorityQueue`, translated operation by operation, with `Job`
  objects compared by `priority` alone (all other dataclass fields are
  `compare=False` in the source).
-/

namespace Mediaverse

/-! ## Event bus topic matching (`app/core/event_bus.py`) -/

/-- `EventBus._match_parts`: recursive segment-wise matching.
`#` matches everything remaining, `*` matches exactly one segment,
otherwise segments must be equal literals. -/
def matchParts : List String → List String → Bool
  | [], topicParts => topicParts.isEmpty
  | p :: pp, topicParts =>
    if p = "#" then true
    else
      match topicParts with
      | [] => false
      | t :: tp =>
        if p = "*" then matchParts pp tp
        else if p = t then matchParts pp tp
        else false

/-- Auxiliary for `splitSeg`: Python's `str.split('/')` over the character
list, accumulating the current segment in reverse. -/
def splitSegAux : List Char → List Char → List String
  | [], acc => [String.mk acc.reverse]
  | c :: rest, acc =>
    if c = '/' then String.mk acc.reverse :: splitSegAux rest []
    else splitSegAux rest (c :: acc)

/-- Python's `str.split('/')` (as used in `EventBus._topic_matches`):
split on every `'/'`, keeping empty segments; `"".split('/') = [""]`. -/
def splitSeg (s : String) : List String :=
  splitSegAux s.data []

/-- `EventBus._topic_matches`: split pattern and topic on `/` and match
segment-wise. -/
def topicMatches (pattern topic : String) : Bool :=
  matchParts (splitSeg pattern) (splitSeg topic)

/-- Join segments back with `'/'`; inverse of `splitSeg`, used to show
the split is injective. -/
def joinSegs : List String → List Char
  | [] => []
  | s :: rest => if rest.isEmpty then s.data else s.data ++ '/' :: joinSegs rest

/-! ## Tag randomisation (`app/viewmodels/order_builder.py`) -/

/-- `OrderBuilder.shuffle_tags`: keep the first `keepFirst` tags, shuffle the
remainder.  `shuffledRest` is the outcome of `random.shuffle` on
`tags[keepFirst:]` (an arbitrary reordering of it). -/
def shuffle_tags (tags : List String) (keepFirst : Nat) (shuffledRest : List String) : List String :=
  if tags.length ≤ keepFirst then tags
  else tags.take keepFirst ++ shuffledRest

/-- `OrderBuilder.select_random_tags_subset` with `min_count = 5`,
`max_count = 10` (the defaults, used by `create_order`).
`count` is the outcome of `random.randint(min_count, min(max_count, len(tags)))`,
`extra` the outcome of `random.sample(rest, min(need_more, len(rest)))`, and
`shuffledRest` the `random.shuffle` outcome inside the final `shuffle_tags`
call (which uses the default `keep_first = 2`).  `need_more ≤ 0` in Python and
`needMore = 0` in Nat subtraction both select the no-extra branch. -/
def select_random_tags_subset (tags : List String) (minCount : Nat) (count : Nat)
    (extra : List String) (shuffledRest : List String) : List String :=
  if tags.length ≤ minCount then shuffle_tags tags 2 shuffledRest
  else
    let important := tags.take (min 3 tags.length)
    let rest := tags.drop 3
    let needMore := count - important.length
    if needMore > 0 && !rest.isEmpty then
      shuffle_tags (important ++ extra) 2 shuffledRest
    else
      shuffle_tags important 2 shuffledRest

/-! ## Entity store (`app/core/database.py`)

Rows carry the columns the core operations read or write; timestamps are
`Nat` ticks, ids are `Nat`.  The UNIQUE index `uq_posting_history` over
`(client_id, media_id, platform)` is modelled as an explicit duplicate check
where the source would hit an `IntegrityError` at flush/commit time. -/

structure ClientRow where
  id : Nat
  client_code : String
  platform : String
deriving DecidableEq

structure ProductRow where
  id : Nat
  sku : String
deriving DecidableEq

structure MediaRow where
  id : Nat
  product_id : Option Nat
  file_hash : String
deriving DecidableEq

structure OrderRow where
  id : Nat
  client_id : Nat
  target_platform : String
  status : String
  priority : Int
  created_at : Nat
  completed_at : Option Nat
deriving DecidableEq

structure ItemRow where
  id : Nat
  order_id : Nat
  media_id : Nat
  status : String
  attempt_count : Nat
  assigned_at : Option Nat
  completed_at : Option Nat
  error_log : String
deriving DecidableEq

structure HistoryRow where
  client_id : Nat
  media_id : Nat
  platform : String
  external_id : Option String
  external_url : Option String
deriving DecidableEq

structure DBState where
  clients : List ClientRow
  products : List ProductRow
  media : List MediaRow
  orders : List OrderRow
  items : List ItemRow
  history : List HistoryRow
deriving DecidableEq

/-- Update the order item with the given id (an ORM mutation followed by
commit; ids are primary keys, so at most one row is affected). -/
def updateItem (items : List ItemRow) (job_id : Nat) (f : ItemRow → ItemRow) : List ItemRow :=
  items.map (fun it => if it.id == job_id then f it else it)

/-! ## `OrderService.confirm_job` (`app/api/services/order_service.py`)

Read-only: the session is only queried, never written.  Note that the
posting-history re-check filters on `media_id` and `platform` only — the
source does not constrain `client_id` here. -/

structure ConfirmResult where
  can_post : Bool
  reason : String
deriving DecidableEq

def confirm_job (db : DBState) (job_id : Nat) : DBState × ConfirmResult :=
  match db.items.find? (fun it => it.id == job_id) with
  | none => (db, ⟨false, "Job not found"⟩)
  | some job =>
    if job.status != "processing" then
      (db, ⟨false, "Invalid status: " ++ job.status⟩)
    else
      match db.media.find? (fun m => m.id == job.media_id),
            db.orders.find? (fun o => o.id == job.order_id) with
      | some media, some order =>
        match db.history.find? (fun h =>
            h.media_id == media.id && h.platform == order.target_platform) with
        | some _ => (db, ⟨false, "Already posted to this platform"⟩)
        | none => (db, ⟨true, "OK"⟩)
      | _, _ => (db, ⟨true, "OK"⟩)

/-! ## `OrderVM.report_job` (`app/viewmodels/order_vm.py`)

All writes of one call share a session; `except Exception` rolls the session
back and returns `False`, which the model renders as `(db, false)`.  The two
rollback sources on these paths are the `AttributeError` on a missing parent
order and the `IntegrityError` raised by `uq_posting_history`. -/

def report_job (db : DBState) (now : Nat) (job_id : Nat) (status : String)
    (log_message : String) (external_id external_url : Option String) : DBState × Bool :=
  match db.items.find? (fun it => it.id == job_id) with
  | none => (db, false)
  | some item =>
    let order? := db.orders.find? (fun o => o.id == item.order_id)
    if status == "done" then
      match order? with
      | none => (db, false)
      | some order =>
        if db.history.any (fun h => h.client_id == order.client_id &&
            h.media_id == item.media_id && h.platform == order.target_platform) then
          (db, false)
        else
          let items' := updateItem db.items job_id
            (fun it => { it with status := "done", completed_at := some now })
          let hist := db.history ++
            [⟨order.client_id, item.media_id, order.target_platform, external_id, external_url⟩]
          let remaining := (items'.filter (fun it => it.order_id == item.order_id &&
            (it.status == "new" || it.status == "processing"))).length
          let orders' := if remaining == 0 then
              db.orders.map (fun o => if o.id == item.order_id then
                { o with status := "completed", completed_at := some now } else o)
            else db.orders
          ({ db with items := items', orders := orders', history := hist }, true)
    else
      let items' := updateItem db.items job_id
        (fun it => { it with status := "failed", error_log := log_message })
      let remaining := (items'.filter (fun it => it.order_id == item.order_id &&
        (it.status == "new" || it.status == "processing"))).length
      if remaining == 0 then
        match order? with
        | none => (db, false)
        | some _ =>
          let orders' := db.orders.map (fun o => if o.id == item.order_id then
            { o with status := "completed", completed_at := some now } else o)
          ({ db with items := items', orders := orders' }, true)
      else ({ db with items := items' }, true)

/-! ## `OrderVM.get_next_job` (`app/viewmodels/order_vm.py`)

The query joins `OrderItem` with its `Order` and `MediaAsset`, filters on the
client's orders for the client's platform and `status == 'new'`, and orders by
`Order.priority DESC, Order.created_at ASC`.  SQL leaves the order of rows
with equal sort keys open; the model keeps the earliest-listed row on ties.
The returned dict's `payload` (posting_config plus product defaults) carries
no property used below and is not modelled. -/

structure JobDict where
  job_id : Nat
  order_id : Nat
  media_id : Nat
  media_url : Option String
deriving DecidableEq

def orderOfItem (db : DBState) (it : ItemRow) : Option OrderRow :=
  db.orders.find? (fun o => o.id == it.order_id)

def jobCandidate (db : DBState) (client : ClientRow) (it : ItemRow) : Bool :=
  it.status == "new" &&
  (match orderOfItem db it with
   | some o => o.client_id == client.id && o.target_platform == client.platform
   | none => false) &&
  db.media.any (fun m => m.id == it.media_id)

def betterOrder (a b : OrderRow) : Bool :=
  a.priority > b.priority || (a.priority == b.priority && a.created_at < b.created_at)

/-- One comparison step of the `ORDER BY ... .first()` selection: keep the
candidate whose order sorts strictly earlier, the incumbent on ties. -/
def pickBetter (db : DBState) (best : Option ItemRow) (it : ItemRow) : Option ItemRow :=
  match best with
  | none => some it
  | some b =>
    match orderOfItem db it, orderOfItem db b with
    | some oi, some ob => if betterOrder oi ob then some it else some b
    | _, _ => some b

def selectNext (db : DBState) (cands : List ItemRow) : Option ItemRow :=
  cands.foldl (pickBetter db) none

def get_next_job (db : DBState) (client_code : String) (now : Nat) : DBState × Option JobDict :=
  match db.clients.find? (fun c => c.client_code == client_code) with
  | none => (db, none)
  | some client =>
    match selectNext db (db.items.filter (jobCandidate db client)) with
    | none => (db, none)
    | some item =>
      let items' := updateItem db.items item.id
        (fun it => { it with
          status := "processing"
          assigned_at := some now
          attempt_count := it.attempt_count + 1 })
      let media? := db.media.find? (fun m => m.id == item.media_id)
      let job : JobDict :=
        { job_id := item.id, order_id := item.order_id, media_id := item.media_id,
          media_url := media?.map (fun m => "/api/video/" ++ m.file_hash) }
      ({ db with items := items' }, some job)

/-! ## Message envelopes and orchestrator (`app/core/message_envelope.py`,
`app/core/message_orchestrator.py`)

Response payload details that no claim touches (the ack's
`{'status': 'received'}` body, error codes, job-assignment title/description)
are kept only as far as needed: message type, reply token, job id, media URL
and text.  The in-memory `ClientStatus` registry only feeds counters and
EventBus publications, which no claim below depends on, so `process_envelope`
threads the store state.  Every `EventType` value has a registered handler, so
the `UNKNOWN_EVENT` branch is unreachable for well-formed events, and the
embedded handlers are total, so the per-event `except` branch
(`PROCESSING_ERROR`) is never taken on these paths. -/

inductive EventType where
  | request_job
  | report_job
  | heartbeat
  | log
deriving DecidableEq

inductive MsgType where
  | job_assignment
  | text
  | error
  | ack
deriving DecidableEq

structure EventPayload where
  job_id : Option Nat
  status : Option String
  log : Option String
deriving DecidableEq

structure Event where
  type : EventType
  reply_token : String
  payload : EventPayload
deriving DecidableEq

structure MessageEnvelope where
  client_code : String
  events : List Event
deriving DecidableEq

structure RespMsg where
  type : MsgType
  job_id : Option Nat
  media_url : Option String
  text : Option String
deriving DecidableEq

structure ResponseEnvelope where
  reply_token : String
  messages : List RespMsg
deriving DecidableEq

/-- `ResponseEnvelope.create_ack`. -/
def createAck (rt : String) : ResponseEnvelope :=
  ⟨rt, [⟨.ack, none, none, none⟩]⟩

/-- `ResponseEnvelope.create_text`. -/
def createText (rt : String) (s : String) : ResponseEnvelope :=
  ⟨rt, [⟨.text, none, none, some s⟩]⟩

/-- `ResponseEnvelope.create_job_assignment`. -/
def createJobAssignment (rt : String) (job_id : Nat) (media_url : Option String) :
    ResponseEnvelope :=
  ⟨rt, [⟨.job_assignment, some job_id, media_url, none⟩]⟩

/-- `MessageOrchestrator._handle_request_job`: delegate to
`OrderVM.get_next_job`; a produced job becomes a `job_assignment` response,
otherwise the "Standby - no jobs available" text response. -/
def handle_request_job (db : DBState) (client_code : String) (ev : Event) (now : Nat) :
    DBState × ResponseEnvelope :=
  match get_next_job db client_code now with
  | (db', some job) => (db', createJobAssignment ev.reply_token job.job_id job.media_url)
  | (db', none) => (db', createText ev.reply_token "Standby - no jobs available")

/-- `MessageOrchestrator._handle_report_job`: delegate to `OrderVM.report_job`
(whose boolean result the source ignores) and acknowledge unconditionally.
`payload.get('status', 'done')` and `payload.get('log', '')` supply defaults;
a missing `job_id` reaches `report_job` as `None` and matches no row. -/
def handle_report_job (db : DBState) (ev : Event) (now : Nat) :
    DBState × ResponseEnvelope :=
  let status := ev.payload.status.getD "done"
  let logm := ev.payload.log.getD ""
  let db' := match ev.payload.job_id with
    | some jid => (report_job db now jid status logm none none).1
    | none => db
  (db', createAck ev.reply_token)

/-- One step of `MessageOrchestrator.process_envelope`'s dispatch table. -/
def processEvent (db : DBState) (client_code : String) (ev : Event) (now : Nat) :
    DBState × ResponseEnvelope :=
  match ev.type with
  | .request_job => handle_request_job db client_code ev now
  | .report_job => handle_report_job db ev now
  | .heartbeat => (db, createAck ev.reply_token)
  | .log => (db, createAck ev.reply_token)

/-- `MessageOrchestrator.process_envelope`: handle the events in declared
order, appending one response envelope per event. -/
def process_envelope (db : DBState) (env : MessageEnvelope) (now : Nat) :
    DBState × List ResponseEnvelope :=
  env.events.foldl (fun acc ev =>
    let r := processEvent acc.1 env.client_code ev now
    (r.1, acc.2 ++ [r.2])) (db, [])

/-! ## `OrderBuilder` (`app/viewmodels/order_builder.py`) -/

/-- The filters of `OrderBuilder.get_available_clips_random` before
`ORDER BY RANDOM() LIMIT quantity`: media not yet in this client's posting
history for this platform, optionally narrowed to one product when the
`prod_code` resolves (an unknown `prod_code` adds no filter). -/
def eligible_clips (db : DBState) (client_id : Nat) (platform : String)
    (prod_code : Option String) : List MediaRow :=
  let posted := (db.history.filter (fun h =>
    h.client_id == client_id && h.platform == platform)).map (fun h => h.media_id)
  let base := db.media.filter (fun m => !posted.contains m.id)
  match prod_code with
  | none => base
  | some code =>
    match db.products.find? (fun p => p.sku == code) with
    | some product => base.filter (fun m => m.product_id == some product.id)
    | none => base

/-- `OrderBuilder.get_available_clips_random`: `randomised` is the outcome of
the store's `ORDER BY RANDOM()` over the eligible rows — theorems assume it is
a permutation of `eligible_clips db client_id platform prod_code` — and
`LIMIT quantity` takes its prefix. -/
def get_available_clips_random (db : DBState) (client_id : Nat) (platform : String)
    (prod_code : Option String) (quantity : Nat) (randomised : List MediaRow) :
    List MediaRow :=
  let _ := eligible_clips db client_id platform prod_code
  randomised.take quantity

/-- Autoincrement primary key for `orders`. -/
def nextOrderId (db : DBState) : Nat := (db.orders.map (fun o => o.id)).foldl max 0 + 1

/-- Autoincrement primary key for `order_items`. -/
def nextItemId (db : DBState) : Nat := (db.items.map (fun it => it.id)).foldl max 0 + 1

/-- `OrderBuilder.create_order`: look up the client, draw up to `quantity`
eligible clips at random, then persist one `pending` order plus one `new`
item per clip in a single transaction.  The per-clip payload randomisation
(`select_random_tags_subset`, `pick_random_affiliate`, `vary_description`)
feeds only `posting_config` snapshots and the returned payload dicts, which no
claim below inspects, so items are recorded with their ids, media and status.
Returns `none` for an unknown client or an empty clip set. -/
def create_order (db : DBState) (client_code : String) (platform : String)
    (quantity : Nat) (prod_code : Option String) (randomised : List MediaRow)
    (now : Nat) : Option (DBState × OrderRow × List ItemRow) :=
  match db.clients.find? (fun c => c.client_code == client_code) with
  | none => none
  | some client =>
    let clips := get_available_clips_random db client.id platform prod_code quantity randomised
    if clips.isEmpty then none
    else
      let oid := nextOrderId db
      let newOrder : OrderRow := ⟨oid, client.id, platform, "pending", 0, now, none⟩
      let newItems := ((List.range clips.length).zip clips).map (fun pc =>
        (⟨nextItemId db + pc.1, oid, pc.2.id, "new", 0, none, none, ""⟩ : ItemRow))
      some ({ db with orders := db.orders ++ [newOrder], items := db.items ++ newItems },
            newOrder, newItems)

/-! ## Job queue (`app/core/queue_orchestrator.py`)

`QueueOrchestrator` keeps its jobs in a `queue.PriorityQueue`, which stores a
CPython `heapq` binary heap in a list.  `Job` is `@dataclass(order=True)` with
every field except `priority` marked `compare=False`, so `Job.__lt__` compares
priorities only.  `heappush`/`heappop` below are CPython's `_siftdown` /
`_siftup` translated line by line; all call sites use `startpos = 0`.
`seq` stands in for insertion identity (the source's `job_id`/`created_at`,
both excluded from comparison); `job_type`, payload, handlers and the
dead-letter bucket play no part in the dequeue order. -/

structure QJob where
  priority : Nat
  seq : Nat
  status : String
  attempt_count : Nat
deriving DecidableEq

instance : Inhabited QJob := ⟨⟨0, 0, "pending", 0⟩⟩

/-- `heap.getD i` — all in-range in reachable states. -/
def hget (heap : List QJob) (i : Nat) : QJob :=
  heap.getD i default

/-- CPython `heapq._siftdown(heap, startpos, pos)` with `newitem = heap[pos]`
passed explicitly: bubble `newitem` towards the root while it is strictly
smaller than its parent.  `fuel` makes the loop structurally recursive; the
loop runs at most `pos` iterations, callers pass `fuel = pos`, and an
exhausted fuel (reachable only at `pos = 0`) performs exactly the loop-exit
assignment `heap[pos] = newitem`. -/
def siftdownAux : Nat → List QJob → Nat → Nat → QJob → List QJob
  | 0, heap, _startpos, pos, newitem => heap.set pos newitem
  | fuel + 1, heap, startpos, pos, newitem =>
    if startpos < pos then
      let parentpos := (pos - 1) / 2
      let parent := hget heap parentpos
      if newitem.priority < parent.priority then
        siftdownAux fuel (heap.set pos parent) startpos parentpos newitem
      else heap.set pos newitem
    else heap.set pos newitem

/-- CPython `heapq._siftup(heap, pos)` with `endpos = len(heap)` and the
displaced `newitem` passed explicitly: walk the hole down to a leaf along the
smaller children, then sift the new item back up via `_siftdown`.  `fuel`
makes the loop structurally recursive; the loop runs at most `endpos - pos`
iterations, callers pass `fuel = endpos`, and an exhausted fuel (reachable
only once `pos ≥ endpos`, where the loop guard is false) performs exactly the
loop-exit actions. -/
def siftupAux : Nat → List QJob → Nat → Nat → Nat → QJob → List QJob
  | 0, heap, _endpos, startpos, pos, newitem =>
    siftdownAux pos (heap.set pos newitem) startpos pos newitem
  | fuel + 1, heap, endpos, startpos, pos, newitem =>
    if 2 * pos + 1 < endpos then
      let childpos := 2 * pos + 1
      let rightpos := childpos + 1
      if rightpos < endpos && !((hget heap childpos).priority < (hget heap rightpos).priority) then
        siftupAux fuel (heap.set pos (hget heap rightpos)) endpos startpos rightpos newitem
      else
        siftupAux fuel (heap.set pos (hget heap childpos)) endpos startpos childpos newitem
    else siftdownAux pos (heap.set pos newitem) startpos pos newitem

/-- CPython `heapq.heappush`. -/
def heappush (heap : List QJob) (item : QJob) : List QJob :=
  siftdownAux heap.length (heap ++ [item]) 0 heap.length item

/-- CPython `heapq.heappop`; `none` models `queue.Empty` (so
`QueueOrchestrator.dequeue` returning `None`). -/
def heappop (heap : List QJob) : Option (QJob × List QJob) :=
  if heap.isEmpty then none
  else
    let lastelt := hget heap (heap.length - 1)
    let rest := heap.dropLast
    if rest.isEmpty then some (lastelt, [])
    else
      some (hget rest 0, siftupAux rest.length (rest.set 0 lastelt) rest.length 0 0 lastelt)

structure QueueState where
  heap : List QJob
  nextSeq : Nat
deriving DecidableEq

/-- The empty queue of a fresh `QueueOrchestrator`. -/
def emptyQueue : QueueState := ⟨[], 0⟩

/-- `QueueOrchestrator.enqueue`: build the `Job` (status `pending`,
`attempt_count = 0`) and `heappush` it. -/
def enqueue (q : QueueState) (priority : Nat) : QueueState :=
  ⟨heappush q.heap ⟨priority, q.nextSeq, "pending", 0⟩, q.nextSeq + 1⟩

/-- `QueueOrchestrator.dequeue`: pop the heap; the popped job is marked
`processing` and its `attempt_count` incremented before it is returned. -/
def dequeue (q : QueueState) : Option (QJob × QueueState) :=
  match heappop q.heap with
  | none => none
  | some (j, h) =>
    some ({ j with status := "processing", attempt_count := j.attempt_count + 1 },
          ⟨h, q.nextSeq⟩)

/-- Enqueue a list of priorities in order. -/
def enqueueAll (q : QueueState) (ps : List Nat) : QueueState :=
  ps.foldl enqueue q

/-- Back-to-back dequeues until the queue reports empty (`fuel` bounds the
recursion; `heap.length` is always enough). -/
def popAll (heap : List QJob) (fuel : Nat) : List QJob :=
  match fuel with
  | 0 => []
  | fuel' + 1 =>
    match heappop heap with
    | none => []
    | some (j, h) => j :: popAll h fuel'

/-- The sequence of jobs observed by dequeueing back-to-back until empty;
as in `dequeue`, each popped job is returned marked `processing` with its
`attempt_count` incremented. -/
def dequeueAll (q : QueueState) : List QJob :=
  (popAll q.heap q.heap.length).map (fun j =>
    { j with status := "processing", attempt_count := j.attempt_count + 1 })

/-- FIFO tie-break discipline: strictly ascending priorities, with insertion
order (`seq`) deciding between equal priorities. -/
def fifoTieBreak (l : List QJob) : Prop :=
  l.Pairwise (fun a b => a.priority < b.priority ∨ (a.priority = b.priority ∧ a.seq < b.seq))

instance (l : List QJob) : Decidable (fifoTieBreak l) := by
  unfold fifoTieBreak; infer_instance

/-! # Theorems

Helper lemmas come first, then one theorem per claim (with witness or
counterexample theorems where required). -/

/-! ## Topic matching lemmas (claim C9) -/

/-- Matching is reflexive: every pattern matches itself as a topic. -/
theorem matchParts_refl (l : List String) : matchParts l l = true := by
  induction l with
  | nil => rfl
  | cons s rest ih =>
    by_cases h1 : s = "#"
    · simp [matchParts, h1]
    · simp [matchParts, h1, ih]

/-- A wildcard-free pattern matches exactly the equal segment list. -/
theorem matchParts_no_wildcard (pp tp : List String)
    (hw : ∀ seg ∈ pp, seg ≠ "*" ∧ seg ≠ "#") :
    matchParts pp tp = true ↔ pp = tp := by
  induction pp generalizing tp with
  | nil =>
    cases tp with
    | nil => simp [matchParts]
    | cons t tp' => simp [matchParts]
  | cons p pp' ih =>
    have hp := hw p (by simp)
    cases tp with
    | nil => simp [matchParts, hp.2]
    | cons t tp' =>
      by_cases he : p = t
      · subst he
        have : matchParts (p :: pp') (p :: tp') = matchParts pp' tp' := by
          simp [matchParts, hp.1, hp.2]
        rw [this, ih tp' (fun seg hs => hw seg (List.mem_cons_of_mem _ hs))]
        simp
      · simp [matchParts, hp.1, hp.2, he]

/-- `splitSegAux` always produces at least one segment. -/
theorem splitSegAux_ne_nil (cs acc : List Char) : splitSegAux cs acc ≠ [] := by
  induction cs generalizing acc with
  | nil => simp [splitSegAux]
  | cons c rest ih =>
    by_cases hc : c = '/'
    · simp [splitSegAux, hc]
    · simpa [splitSegAux, hc] using ih (c :: acc)

/-- `joinSegs` undoes `splitSegAux`. -/
theorem joinSegs_splitSegAux (cs acc : List Char) :
    joinSegs (splitSegAux cs acc) = acc.reverse ++ cs := by
  induction cs generalizing acc with
  | nil => simp [splitSegAux, joinSegs]
  | cons c rest ih =>
    by_cases hc : c = '/'
    · have hne : splitSegAux rest [] ≠ [] := splitSegAux_ne_nil rest []
      simp [splitSegAux, hc, joinSegs, List.isEmpty_iff, hne, ih]
    · simpa [splitSegAux, hc] using ih (c :: acc)

/-- Splitting on `/` is injective. -/
theorem splitSeg_injective {s t : String} (h : splitSeg s = splitSeg t) : s = t := by
  have hs := joinSegs_splitSegAux s.data []
  have ht := joinSegs_splitSegAux t.data []
  simp only [List.reverse_nil, List.nil_append] at hs ht
  have hd : s.data = t.data := by
    rw [← hs, ← ht]
    unfold splitSeg at h
    rw [h]
  cases s; cases t
  simp only [String.data] at hd
  rw [hd]

/-- Claim C9: the event bus topic matcher, applied segment-wise, satisfies the
spec's table — `a/*/c` matches `a/b/c` but neither `a/c` nor `a/b/d/c`;
`a/#` matches `a`, `a/b` and `a/b/c/d` — and a pattern without wildcard
segments matches exactly the literally equal topic. -/
theorem C9_topic_matcher :
    (topicMatches "a/*/c" "a/b/c" = true ∧ topicMatches "a/*/c" "a/c" = false ∧
     topicMatches "a/*/c" "a/b/d/c" = false ∧ topicMatches "a/#" "a" = true ∧
     topicMatches "a/#" "a/b" = true ∧ topicMatches "a/#" "a/b/c/d" = true) ∧
    ∀ pattern topic : String, (∀ seg ∈ splitSeg pattern, seg ≠ "*" ∧ seg ≠ "#") →
      (topicMatches pattern topic = true ↔ pattern = topic) := by
  refine ⟨by decide, fun pattern topic hw => ?_⟩
  constructor
  · intro hm
    exact splitSeg_injective ((matchParts_no_wildcard _ _ hw).mp hm)
  · intro he
    subst he
    exact matchParts_refl _

/-- Witness for C9 at the concrete wildcard-free pattern `log/info`. -/
theorem C9_witness :
    ((∀ seg ∈ splitSeg "log/info", seg ≠ "*" ∧ seg ≠ "#") ∧
     (topicMatches "log/info" "log/info" = true ↔ "log/info" = "log/info")) :=
  ⟨by decide, C9_topic_matcher.2 "log/info" "log/info" (by decide)⟩

/-! ## Tag randomisation (claim C8) -/

/-- Claim C8, counterexample: for the platform value `K = 3` the claim fails
on the Order Builder path.  `select_random_tags_subset` always reshuffles with
the default `keep_first = 2`, so position 3 is not stable: for the 6-tag list
below there is an RNG outcome (`count = 5`, sample `["t4", "t5"]` from the
rest, shuffle outcome `["t4", "t3", "t5"]` — a permutation of the selected
remainder, as `random.shuffle` always produces) whose first three positions
differ from the input's. -/
theorem C8_counterexample :
    (["t4", "t3", "t5"] : List String).Perm
      (((["t1", "t2", "t3", "t4", "t5", "t6"] : List String).take
          (min 3 (["t1", "t2", "t3", "t4", "t5", "t6"] : List String).length) ++
        ["t4", "t5"]).drop 2) ∧
    (["t4", "t5"] : List String).Sublist
      ((["t1", "t2", "t3", "t4", "t5", "t6"] : List String).drop 3) ∧
    (select_random_tags_subset ["t1", "t2", "t3", "t4", "t5", "t6"] 5 5
        ["t4", "t5"] ["t4", "t3", "t5"]).take 3 ≠
      (["t1", "t2", "t3", "t4", "t5", "t6"] : List String).take 3 := by
  decide

/-- Claim C8, amended: `shuffle_tags` keeps the first `keep_first` positions
(so `K = 2` for TikTok/Facebook and `K = 3` for Shopee/YouTube, which call it
directly with those arguments) for every RNG outcome; but the tag list the
Order Builder places in the payload via `select_random_tags_subset` is stable
only in its first 2 positions, because that path always shuffles with the
default `keep_first = 2`. -/
theorem C8_tag_stability :
    (∀ (tags : List String) (keepFirst : Nat) (shuffledRest : List String),
        keepFirst ≤ tags.length →
        (shuffle_tags tags keepFirst shuffledRest).take keepFirst = tags.take keepFirst) ∧
    (∀ (tags : List String) (count : Nat) (extra shuffledRest : List String),
        2 ≤ tags.length →
        (select_random_tags_subset tags 5 count extra shuffledRest).take 2 = tags.take 2) := by
  have hshuf : ∀ (tags : List String) (keepFirst : Nat) (shuffledRest : List String),
      keepFirst ≤ tags.length →
      (shuffle_tags tags keepFirst shuffledRest).take keepFirst = tags.take keepFirst := by
    intro tags k sr hk
    unfold shuffle_tags
    split
    · rfl
    · rw [List.take_append_of_le_length, List.take_take, min_self]
      rw [List.length_take]
      omega
  refine ⟨hshuf, fun tags count extra sr h2 => ?_⟩
  unfold select_random_tags_subset
  split
  · exact hshuf tags 2 sr h2
  · rename_i hlen
    have h6 : 5 < tags.length := by omega
    have hmin : min 3 tags.length = 3 := by omega
    have htk : ((tags.take (min 3 tags.length)) ++ extra).take 2 = tags.take 2 := by
      rw [hmin, List.take_append_of_le_length, List.take_take]
      · norm_num
      · rw [List.length_take]; omega
    have htk2 : (tags.take (min 3 tags.length)).take 2 = tags.take 2 := by
      rw [hmin, List.take_take]; norm_num
    dsimp only
    split
    · rw [hshuf _ 2 sr ?_, htk]
      rw [List.length_append, List.length_take]
      omega
    · rw [hshuf _ 2 sr ?_, htk2]
      rw [List.length_take]
      omega

/-- Witness for the amended C8 at concrete inputs. -/
theorem C8_witness :
    (shuffle_tags ["a", "b", "c", "d"] 3 ["d"]).take 3 = (["a", "b", "c", "d"] : List String).take 3 ∧
    (select_random_tags_subset ["t1", "t2", "t3", "t4", "t5", "t6"] 5 5
        ["t4", "t5"] ["t4", "t3", "t5"]).take 2 =
      (["t1", "t2", "t3", "t4", "t5", "t6"] : List String).take 2 :=
  ⟨C8_tag_stability.1 ["a", "b", "c", "d"] 3 ["d"] (by decide),
   C8_tag_stability.2 ["t1", "t2", "t3", "t4", "t5", "t6"] 5 ["t4", "t5"]
     ["t4", "t3", "t5"] (by decide)⟩

/-! ## Job state machine (claims C2, C1, C3) -/

/-- A `confirm`/`report` call sequence as quantified over by I3/P8:
`confirm` is `OrderService.confirm_job`, `report` is `OrderVM.report_job`. -/
inductive LifecycleOp where
  | confirm (job_id : Nat)
  | report (job_id : Nat) (status : String) (log_message : String)
      (external_id external_url : Option String) (now : Nat)
deriving DecidableEq

/-- Apply one lifecycle call to the store. -/
def applyOp (db : DBState) : LifecycleOp → DBState
  | .confirm j => (confirm_job db j).1
  | .report j st lg eid eurl now => (report_job db now j st lg eid eurl).1

/-- Apply a finite sequence of lifecycle calls. -/
def applyOps (db : DBState) (ops : List LifecycleOp) : DBState :=
  ops.foldl applyOp db

/-- The five `OrderItem` statuses of §4.5. -/
def allowedStatus (s : String) : Prop :=
  s ∈ (["new", "processing", "done", "failed", "skipped"] : List String)

instance (s : String) : Decidable (allowedStatus s) := by
  unfold allowedStatus; infer_instance

/-- Membership in an id-targeted item update comes from an original row,
either updated or untouched. -/
theorem mem_updateItem {items : List ItemRow} {j : Nat} {f : ItemRow → ItemRow}
    {it : ItemRow} (h : it ∈ updateItem items j f) :
    (∃ it0 ∈ items, it = f it0) ∨ it ∈ items := by
  unfold updateItem at h
  rcases List.mem_map.mp h with ⟨it0, h0, heq⟩
  split at heq
  · exact Or.inl ⟨it0, h0, heq.symm⟩
  · exact Or.inr (heq ▸ h0)

/-- `OrderVM.report_job` only ever writes the statuses `done` and `failed`
into items, so it preserves the status set of §4.5. -/
theorem report_job_allowedStatus (db : DBState) (now job_id : Nat)
    (st lg : String) (eid eurl : Option String)
    (h : ∀ it ∈ db.items, allowedStatus it.status) :
    ∀ it ∈ (report_job db now job_id st lg eid eurl).1.items, allowedStatus it.status := by
  unfold report_job
  cases hfind : db.items.find? (fun it => it.id == job_id) with
  | none => simpa using h
  | some item =>
    dsimp only
    split
    · cases horder : db.orders.find? (fun o => o.id == item.order_id) with
      | none => simpa using h
      | some order =>
        dsimp only
        split
        · simpa using h
        · intro it hit
          rcases mem_updateItem hit with ⟨it0, _, rfl⟩ | hmem
          · simp [allowedStatus]
          · exact h it hmem
    · split
      · cases horder : db.orders.find? (fun o => o.id == item.order_id) with
        | none => simpa using h
        | some order =>
          intro it hit
          rcases mem_updateItem hit with ⟨it0, _, rfl⟩ | hmem
          · simp [allowedStatus]
          · exact h it hmem
      · intro it hit
        rcases mem_updateItem hit with ⟨it0, _, rfl⟩ | hmem
        · simp [allowedStatus]
        · exact h it hmem

/-- `OrderService.confirm_job` never writes to the store. -/
theorem confirm_job_pure (db : DBState) (job_id : Nat) : (confirm_job db job_id).1 = db := by
  unfold confirm_job
  cases db.items.find? (fun it => it.id == job_id) with
  | none => rfl
  | some job =>
    dsimp only
    split
    · rfl
    · cases db.media.find? (fun m => m.id == job.media_id) with
      | none => rfl
      | some media =>
        cases db.orders.find? (fun o => o.id == job.order_id) with
        | none => rfl
        | some order =>
          dsimp only
          cases db.history.find? (fun h =>
              h.media_id == media.id && h.platform == order.target_platform) with
          | none => rfl
          | some _ => rfl

/-- Claim C2, counterexample: the transition guard does not exist in
`OrderVM.report_job` — it overwrites terminal states.  On a store whose only
item is already `done`, `report(failed)` moves it to `failed` (and reports
success), contradicting "once an item is in a terminal state, no subsequent
report call changes its status". -/
theorem C2_counterexample :
    ((report_job
        (⟨[], [], [], [⟨1, 3, "youtube", "pending", 0, 0, none⟩],
          [⟨1, 1, 7, "done", 1, none, some 0, ""⟩], []⟩ : DBState)
        5 1 "failed" "boom" none none).1.items.map (fun it => it.status) = ["failed"]) ∧
    ((report_job
        (⟨[], [], [], [⟨1, 3, "youtube", "pending", 0, 0, none⟩],
          [⟨1, 1, 7, "done", 1, none, some 0, ""⟩], []⟩ : DBState)
        5 1 "failed" "boom" none none).2 = true) := by
  decide

/-- Claim C2, amended: no `confirm`/`report` sequence drives an item outside
the five statuses of §4.5 (`new`, `processing`, `done`, `failed`, `skipped`),
and `OrderService.confirm_job` never changes any status at all; but the
transition relation of I3 is not enforced — `OrderVM.report_job` writes
`done`/`failed` unconditionally, whatever the current status
(see the counterexample). -/
theorem C2_status_closure :
    (∀ (db : DBState) (ops : List LifecycleOp),
        (∀ it ∈ db.items, allowedStatus it.status) →
        ∀ it ∈ (applyOps db ops).items, allowedStatus it.status) ∧
    (∀ (db : DBState) (job_id : Nat), (confirm_job db job_id).1 = db) := by
  refine ⟨fun db ops => ?_, confirm_job_pure⟩
  induction ops generalizing db with
  | nil => intro h; simpa [applyOps] using h
  | cons op rest ih =>
    intro h
    have hstep : ∀ it ∈ (applyOp db op).items, allowedStatus it.status := by
      cases op with
      | confirm j => rw [applyOp, confirm_job_pure]; exact h
      | report j st lg eid eurl now => exact report_job_allowedStatus db now j st lg eid eurl h
    simpa [applyOps] using ih (applyOp db op) hstep

/-- Witness for the amended C2: a store with one `new` item, driven by a
confirm and two reports, keeps every status within the §4.5 set. -/
theorem C2_witness :
    (∀ it ∈ (⟨[], [], [], [⟨1, 3, "youtube", "pending", 0, 0, none⟩],
        [⟨1, 1, 7, "new", 0, none, none, ""⟩], []⟩ : DBState).items,
      allowedStatus it.status) ∧
    ∀ it ∈ (applyOps
        (⟨[], [], [], [⟨1, 3, "youtube", "pending", 0, 0, none⟩],
          [⟨1, 1, 7, "new", 0, none, none, ""⟩], []⟩ : DBState)
        [.confirm 1, .report 1 "done" "" none none 4,
         .report 1 "failed" "x" none none 5]).items,
      allowedStatus it.status :=
  ⟨by decide,
   C2_status_closure.1
     (⟨[], [], [], [⟨1, 3, "youtube", "pending", 0, 0, none⟩],
        [⟨1, 1, 7, "new", 0, none, none, ""⟩], []⟩ : DBState)
     [.confirm 1, .report 1 "done" "" none none 4,
      .report 1 "failed" "x" none none 5]
     (by decide)⟩

/-- Claim C1, counterexample: a `report(done)` whose PostingHistory INSERT
violates `uq_posting_history` does not demote the item to `skipped` — the
generic `except Exception` rolls the whole transaction back (the item keeps
its `processing` status) and `report_job` returns `False`, not success. -/
theorem C1_counterexample :
    ((report_job
        (⟨[⟨3, "BOT-X", "youtube"⟩], [], [⟨7, none, "h7"⟩],
          [⟨1, 3, "youtube", "pending", 0, 0, none⟩],
          [⟨1, 1, 7, "processing", 1, some 2, none, ""⟩],
          [⟨3, 7, "youtube", some "v0", none⟩]⟩ : DBState)
        5 1 "done" "" (some "v1") none).2 = false) ∧
    ((report_job
        (⟨[⟨3, "BOT-X", "youtube"⟩], [], [⟨7, none, "h7"⟩],
          [⟨1, 3, "youtube", "pending", 0, 0, none⟩],
          [⟨1, 1, 7, "processing", 1, some 2, none, ""⟩],
          [⟨3, 7, "youtube", some "v0", none⟩]⟩ : DBState)
        5 1 "done" "" (some "v1") none).1.items.map (fun it => it.status) = ["processing"]) ∧
    ((report_job
        (⟨[⟨3, "BOT-X", "youtube"⟩], [], [⟨7, none, "h7"⟩],
          [⟨1, 3, "youtube", "pending", 0, 0, none⟩],
          [⟨1, 1, 7, "processing", 1, some 2, none, ""⟩],
          [⟨3, 7, "youtube", some "v0", none⟩]⟩ : DBState)
        5 1 "done" "" (some "v1") none).1.history.length = 1) := by
  decide

/-- Claim C1, amended: when the reported item and its order exist and the
`(client_id, media_id, platform)` triple is already in PostingHistory, the
UNIQUE violation is caught but demoted to a full rollback, not to `skipped`:
`report_job` returns the store unchanged (so the item's status is untouched
and no second PostingHistory row is ever created) together with `False`.
No exception propagates (the function is total). -/
theorem C1_unique_violation_rollback (db : DBState) (now job_id : Nat)
    (lg : String) (eid eurl : Option String) (item : ItemRow) (order : OrderRow)
    (hitem : db.items.find? (fun it => it.id == job_id) = some item)
    (horder : db.orders.find? (fun o => o.id == item.order_id) = some order)
    (hdup : db.history.any (fun h => h.client_id == order.client_id &&
        h.media_id == item.media_id && h.platform == order.target_platform) = true) :
    report_job db now job_id "done" lg eid eurl = (db, false) := by
  unfold report_job
  rw [hitem]
  dsimp only
  split
  · rw [horder]
    dsimp only
    rw [if_pos hdup]
  · rename_i hfalse
    exact absurd rfl hfalse

/-- Witness for the amended C1 at the counterexample store. -/
theorem C1_witness :
    ((⟨[⟨3, "BOT-X", "youtube"⟩], [], [⟨7, none, "h7"⟩],
        [⟨1, 3, "youtube", "pending", 0, 0, none⟩],
        [⟨1, 1, 7, "processing", 1, some 2, none, ""⟩],
        [⟨3, 7, "youtube", some "v0", none⟩]⟩ : DBState).items.find?
          (fun it => it.id == 1) = some ⟨1, 1, 7, "processing", 1, some 2, none, ""⟩) ∧
    report_job
      (⟨[⟨3, "BOT-X", "youtube"⟩], [], [⟨7, none, "h7"⟩],
        [⟨1, 3, "youtube", "pending", 0, 0, none⟩],
        [⟨1, 1, 7, "processing", 1, some 2, none, ""⟩],
        [⟨3, 7, "youtube", some "v0", none⟩]⟩ : DBState)
      8 1 "done" "log" (some "v2") (some "u") =
      ((⟨[⟨3, "BOT-X", "youtube"⟩], [], [⟨7, none, "h7"⟩],
        [⟨1, 3, "youtube", "pending", 0, 0, none⟩],
        [⟨1, 1, 7, "processing", 1, some 2, none, ""⟩],
        [⟨3, 7, "youtube", some "v0", none⟩]⟩ : DBState), false) :=
  ⟨by decide,
   C1_unique_violation_rollback _ 8 1 "log" (some "v2") (some "u")
     ⟨1, 1, 7, "processing", 1, some 2, none, ""⟩
     ⟨1, 3, "youtube", "pending", 0, 0, none⟩
     (by decide) (by decide) (by decide)⟩

/-- Claim C3, counterexample: `OrderService.confirm_job`'s history re-check
ignores `client_id` — a PostingHistory row left by a *different* client (id
99) for the same media and platform still causes a refusal; and when the
item's own triple is posted, the refusal does not set the item to `skipped`
(the store is returned unchanged, the item stays `processing`). -/
theorem C3_counterexample :
    ((confirm_job
        (⟨[⟨3, "BOT-X", "youtube"⟩], [], [⟨7, none, "h7"⟩],
          [⟨1, 3, "youtube", "pending", 0, 0, none⟩],
          [⟨1, 1, 7, "processing", 1, some 2, none, ""⟩],
          [⟨99, 7, "youtube", none, none⟩]⟩ : DBState) 1).2.can_post = false) ∧
    ((confirm_job
        (⟨[⟨3, "BOT-X", "youtube"⟩], [], [⟨7, none, "h7"⟩],
          [⟨1, 3, "youtube", "pending", 0, 0, none⟩],
          [⟨1, 1, 7, "processing", 1, some 2, none, ""⟩],
          [⟨3, 7, "youtube", none, none⟩]⟩ : DBState) 1).2.can_post = false) ∧
    ((confirm_job
        (⟨[⟨3, "BOT-X", "youtube"⟩], [], [⟨7, none, "h7"⟩],
          [⟨1, 3, "youtube", "pending", 0, 0, none⟩],
          [⟨1, 1, 7, "processing", 1, some 2, none, ""⟩],
          [⟨3, 7, "youtube", none, none⟩]⟩ : DBState) 1).1.items.map
        (fun it => it.status) = ["processing"]) := by
  decide

/-- Claim C3, amended: `OrderService.confirm_job` never modifies the store
(in particular it never sets `skipped`), and for a `processing` item whose
media and order resolve, it refuses exactly when *some* PostingHistory row —
for any client — carries the same `(media_id, platform)` pair. -/
theorem C3_confirm_refusal (db : DBState) (job_id : Nat) (item : ItemRow)
    (media : MediaRow) (order : OrderRow)
    (hitem : db.items.find? (fun it => it.id == job_id) = some item)
    (hstatus : item.status = "processing")
    (hmedia : db.media.find? (fun m => m.id == item.media_id) = some media)
    (horder : db.orders.find? (fun o => o.id == item.order_id) = some order) :
    (confirm_job db job_id).1 = db ∧
    ((confirm_job db job_id).2.can_post = false ↔
      ∃ h ∈ db.history, h.media_id = media.id ∧ h.platform = order.target_platform) := by
  refine ⟨confirm_job_pure db job_id, ?_⟩
  unfold confirm_job
  rw [hitem]
  dsimp only
  rw [if_neg (by simp [hstatus]), hmedia, horder]
  dsimp only
  cases hh : db.history.find? (fun h =>
      h.media_id == media.id && h.platform == order.target_platform) with
  | none =>
    refine ⟨fun habs => absurd habs (by simp), ?_⟩
    rintro ⟨h, hmem, h1, h2⟩
    have := List.find?_eq_none.mp hh h hmem
    simp [h1, h2] at this
  | some h0 =>
    simp only [eq_self_iff_true, true_iff]
    refine ⟨h0, List.mem_of_find?_eq_some hh, ?_⟩
    have := List.find?_some hh
    simpa using this

/-- Witness for the amended C3: the foreign-client store of the
counterexample satisfies the hypotheses, and the refusal criterion holds. -/
theorem C3_witness :
    ((confirm_job
        (⟨[⟨3, "BOT-X", "youtube"⟩], [], [⟨7, none, "h7"⟩],
          [⟨1, 3, "youtube", "pending", 0, 0, none⟩],
          [⟨1, 1, 7, "processing", 1, some 2, none, ""⟩],
          [⟨99, 7, "youtube", none, none⟩]⟩ : DBState) 1).1 =
      (⟨[⟨3, "BOT-X", "youtube"⟩], [], [⟨7, none, "h7"⟩],
          [⟨1, 3, "youtube", "pending", 0, 0, none⟩],
          [⟨1, 1, 7, "processing", 1, some 2, none, ""⟩],
          [⟨99, 7, "youtube", none, none⟩]⟩ : DBState)) ∧
    ((confirm_job
        (⟨[⟨3, "BOT-X", "youtube"⟩], [], [⟨7, none, "h7"⟩],
          [⟨1, 3, "youtube", "pending", 0, 0, none⟩],
          [⟨1, 1, 7, "processing", 1, some 2, none, ""⟩],
          [⟨99, 7, "youtube", none, none⟩]⟩ : DBState) 1).2.can_post = false ↔
      ∃ h ∈ (⟨[⟨3, "BOT-X", "youtube"⟩], [], [⟨7, none, "h7"⟩],
          [⟨1, 3, "youtube", "pending", 0, 0, none⟩],
          [⟨1, 1, 7, "processing", 1, some 2, none, ""⟩],
          [⟨99, 7, "youtube", none, none⟩]⟩ : DBState).history,
        h.media_id = 7 ∧ h.platform = "youtube") :=
  C3_confirm_refusal
    (⟨[⟨3, "BOT-X", "youtube"⟩], [], [⟨7, none, "h7"⟩],
        [⟨1, 3, "youtube", "pending", 0, 0, none⟩],
        [⟨1, 1, 7, "processing", 1, some 2, none, ""⟩],
        [⟨99, 7, "youtube", none, none⟩]⟩ : DBState) 1
    ⟨1, 1, 7, "processing", 1, some 2, none, ""⟩ ⟨7, none, "h7"⟩
    ⟨1, 3, "youtube", "pending", 0, 0, none⟩
    (by decide) (by decide) (by decide) (by decide)

/-! ## Job assignment (claims C4, C10, C6) -/

/-- A `pickBetter` result is the incumbent or the new candidate. -/
theorem pickBetter_eq (db : DBState) (acc : Option ItemRow) (it r : ItemRow)
    (h : pickBetter db acc it = some r) : acc = some r ∨ r = it := by
  cases acc with
  | none =>
    right
    rw [pickBetter] at h
    injection h with h
    exact h.symm
  | some b =>
    cases h1 : orderOfItem db it with
    | none =>
      left
      simp only [pickBetter, h1] at h
      exact h
    | some oi =>
      cases h2 : orderOfItem db b with
      | none =>
        left
        simp only [pickBetter, h1, h2] at h
        exact h
      | some ob =>
        simp only [pickBetter, h1, h2] at h
        split at h
        · right; injection h with h; exact h.symm
        · left; injection h with h; exact congrArg some h

/-- A selected item comes from the candidate list. -/
theorem selectNext_mem (db : DBState) (cands : List ItemRow) (it : ItemRow)
    (h : selectNext db cands = some it) : it ∈ cands := by
  unfold selectNext at h
  suffices haux : ∀ (l : List ItemRow) (acc : Option ItemRow) (r : ItemRow),
      l.foldl (pickBetter db) acc = some r → acc = some r ∨ r ∈ l by
    rcases haux cands none it h with habs | hm
    · cases habs
    · exact hm
  intro l
  induction l with
  | nil => intro acc r hr; exact Or.inl hr
  | cons x xs ih =>
    intro acc r hr
    rcases ih (pickBetter db acc x) r hr with hpick | hm
    · rcases pickBetter_eq db acc x r hpick with hacc | hx
      · exact Or.inl hacc
      · exact Or.inr (hx ▸ List.mem_cons_self x xs)
    · exact Or.inr (List.mem_cons_of_mem x hm)

/-- Unfolding `get_next_job` on the success path: the assigned job is a `new`
candidate item of the pre-call store, and the returned store is the pre-call
store with exactly that item moved to `processing` (assignment stamped,
attempt counted) — the commit happens before the job is handed back. -/
theorem get_next_job_eq (db : DBState) (code : String) (now : Nat)
    (db' : DBState) (job : JobDict)
    (h : get_next_job db code now = (db', some job)) :
    ∃ client, db.clients.find? (fun c => c.client_code == code) = some client ∧
    ∃ it ∈ db.items, jobCandidate db client it = true ∧ it.id = job.job_id ∧
      it.order_id = job.order_id ∧
      db' = { db with items := updateItem db.items it.id (fun x => { x with
        status := "processing"
        assigned_at := some now
        attempt_count := x.attempt_count + 1 }) } := by
  unfold get_next_job at h
  cases hc : db.clients.find? (fun c => c.client_code == code) with
  | none => rw [hc] at h; simp at h
  | some client =>
    rw [hc] at h
    dsimp only at h
    cases hsel : selectNext db (db.items.filter (jobCandidate db client)) with
    | none => rw [hsel] at h; simp at h
    | some item =>
      rw [hsel] at h
      have hfst := congrArg Prod.fst h
      have hsnd := congrArg Prod.snd h
      dsimp only at hfst hsnd
      have hjob := Option.some.inj hsnd
      have hmem := selectNext_mem db _ item hsel
      have hfil := List.mem_filter.mp hmem
      refine ⟨client, rfl, item, hfil.1, hfil.2, ?_, ?_, ?_⟩
      · rw [← hjob]
      · rw [← hjob]
      · exact hfst.symm

/-- The items selected by the `get_next_job` query have status `new` and a
parent order row. -/
theorem jobCandidate_spec (db : DBState) (client : ClientRow) (it : ItemRow)
    (h : jobCandidate db client it = true) :
    it.status = "new" ∧ ∃ o ∈ db.orders, o.id = it.order_id := by
  unfold jobCandidate at h
  simp only [Bool.and_eq_true] at h
  obtain ⟨⟨hst, hord⟩, _⟩ := h
  refine ⟨by simpa using hst, ?_⟩
  cases ho : orderOfItem db it with
  | none => rw [ho] at hord; cases hord
  | some o =>
    have hfind : db.orders.find? (fun o => o.id == it.order_id) = some o := by
      simpa [orderOfItem] using ho
    exact ⟨o, List.mem_of_find?_eq_some hfind, by simpa using List.find?_some hfind⟩

/-- `get_next_job` never touches the orders table. -/
theorem get_next_job_orders (db : DBState) (code : String) (now : Nat) :
    (get_next_job db code now).1.orders = db.orders := by
  unfold get_next_job
  cases db.clients.find? (fun c => c.client_code == code) with
  | none => rfl
  | some client =>
    dsimp only
    cases selectNext db (db.items.filter (jobCandidate db client)) with
    | none => rfl
    | some item => rfl

/-- Claim C4, counterexample: on a store holding one pre-existing order (id 1,
created before the request) with a `new` item, `request_job` returns a
`job_assignment` for that item while the orders table is left exactly as it
was — no just-in-time order is materialised, and the assigned job belongs to
the order that existed before the request. -/
theorem C4_counterexample :
    ((handle_request_job
        (⟨[⟨3, "BOT-X", "youtube"⟩], [], [⟨7, none, "h7"⟩],
          [⟨1, 3, "youtube", "pending", 0, 0, none⟩],
          [⟨1, 1, 7, "new", 0, none, none, ""⟩], []⟩ : DBState)
        "BOT-X" ⟨.request_job, "rt_1", ⟨none, none, none⟩⟩ 5).1.orders =
      [⟨1, 3, "youtube", "pending", 0, 0, none⟩]) ∧
    ((handle_request_job
        (⟨[⟨3, "BOT-X", "youtube"⟩], [], [⟨7, none, "h7"⟩],
          [⟨1, 3, "youtube", "pending", 0, 0, none⟩],
          [⟨1, 1, 7, "new", 0, none, none, ""⟩], []⟩ : DBState)
        "BOT-X" ⟨.request_job, "rt_1", ⟨none, none, none⟩⟩ 5).2 =
      createJobAssignment "rt_1" 1 (some "/api/video/h7")) := by
  decide

/-- Claim C4, amended: `_handle_request_job` delegates to
`OrderVM.get_next_job`, which assigns the next `new` item of an *already
existing* order; no order is created while handling `request_job` (the orders
table is unchanged), and any returned `job_assignment` names an item whose
parent order was in the store before the request. -/
theorem C4_request_job_uses_existing_orders :
    (∀ (db : DBState) (code : String) (ev : Event) (now : Nat),
        (handle_request_job db code ev now).1.orders = db.orders) ∧
    (∀ (db : DBState) (code : String) (ev : Event) (now : Nat)
        (job_id : Nat) (mu : Option String),
        (handle_request_job db code ev now).2 = createJobAssignment ev.reply_token job_id mu →
        ∃ it ∈ db.items, it.status = "new" ∧ it.id = job_id ∧
          ∃ o ∈ db.orders, o.id = it.order_id) := by
  constructor
  · intro db code ev now
    unfold handle_request_job
    rcases hres : get_next_job db code now with ⟨db1, j?⟩
    have : db1.orders = db.orders := by
      have := get_next_job_orders db code now
      rw [hres] at this
      exact this
    cases j? <;> simpa using this
  · intro db code ev now job_id mu h
    unfold handle_request_job at h
    rcases hres : get_next_job db code now with ⟨db1, j?⟩
    rw [hres] at h
    cases j? with
    | none =>
      dsimp only at h
      exact absurd (congrArg (fun r => (r.messages.map (fun m => m.type))) h)
        (by simp [createText, createJobAssignment])
    | some job =>
      dsimp only at h
      have hjid : job.job_id = job_id := by
        have := congrArg (fun r => (r.messages.map (fun m => m.job_id))) h
        simpa [createJobAssignment] using this
      rcases get_next_job_eq db code now db1 job hres with
        ⟨client, _, it, hit, hcand, hid, _, _⟩
      rcases jobCandidate_spec db client it hcand with ⟨hnew, o, ho, hoid⟩
      exact ⟨it, hit, hnew, by rw [hid, hjid], o, ho, hoid⟩

/-- Witness for the amended C4 at the counterexample store. -/
theorem C4_witness :
    ((handle_request_job
        (⟨[⟨3, "BOT-X", "youtube"⟩], [], [⟨7, none, "h7"⟩],
          [⟨1, 3, "youtube", "pending", 0, 0, none⟩],
          [⟨1, 1, 7, "new", 0, none, none, ""⟩], []⟩ : DBState)
        "BOT-X" ⟨.request_job, "rt_1", ⟨none, none, none⟩⟩ 5).2 =
      createJobAssignment "rt_1" 1 (some "/api/video/h7")) ∧
    ∃ it ∈ (⟨[⟨3, "BOT-X", "youtube"⟩], [], [⟨7, none, "h7"⟩],
          [⟨1, 3, "youtube", "pending", 0, 0, none⟩],
          [⟨1, 1, 7, "new", 0, none, none, ""⟩], []⟩ : DBState).items,
      it.status = "new" ∧ it.id = 1 ∧
      ∃ o ∈ (⟨[⟨3, "BOT-X", "youtube"⟩], [], [⟨7, none, "h7"⟩],
          [⟨1, 3, "youtube", "pending", 0, 0, none⟩],
          [⟨1, 1, 7, "new", 0, none, none, ""⟩], []⟩ : DBState).orders,
        o.id = it.order_id :=
  ⟨by decide,
   C4_request_job_uses_existing_orders.2
     (⟨[⟨3, "BOT-X", "youtube"⟩], [], [⟨7, none, "h7"⟩],
        [⟨1, 3, "youtube", "pending", 0, 0, none⟩],
        [⟨1, 1, 7, "new", 0, none, none, ""⟩], []⟩ : DBState)
     "BOT-X" ⟨.request_job, "rt_1", ⟨none, none, none⟩⟩ 5 1 (some "/api/video/h7")
     (by decide)⟩

/-- Claim C10: whenever `OrderVM.get_next_job` hands back a job, the returned
store (already committed, in the model the state returned to the caller) holds
the picked item — which was `new` before the call — as `processing`, with
`assigned_at` stamped to the call time and `attempt_count` incremented by one;
so the `new → processing` transition happens at assignment time, before any
`confirm` call. -/
theorem C10_assignment_commits_transition :
    ∀ (db : DBState) (code : String) (now : Nat) (db' : DBState) (job : JobDict),
      get_next_job db code now = (db', some job) →
      ∃ it ∈ db.items, it.id = job.job_id ∧ it.status = "new" ∧
        db'.items = updateItem db.items job.job_id (fun x => { x with
          status := "processing"
          assigned_at := some now
          attempt_count := x.attempt_count + 1 }) ∧
        ∀ it' ∈ db'.items, it'.id = job.job_id →
          it'.status = "processing" ∧ it'.assigned_at = some now := by
  intro db code now db' job h
  rcases get_next_job_eq db code now db' job h with
    ⟨client, _, it, hit, hcand, hid, _, hdb⟩
  have hnew := (jobCandidate_spec db client it hcand).1
  have hitems : db'.items = updateItem db.items job.job_id (fun x => { x with
      status := "processing"
      assigned_at := some now
      attempt_count := x.attempt_count + 1 }) := by
    rw [hdb, ← hid]
  refine ⟨it, hit, hid, hnew, hitems, ?_⟩
  intro it' hit' hid'
  rw [hitems] at hit'
  rcases List.mem_map.mp hit' with ⟨x, _, heq⟩
  split at heq
  · rw [← heq]
    exact ⟨rfl, rfl⟩
  · rename_i hne
    rw [← heq] at hid'
    simp [hid'] at hne

/-- Witness for C10 at a concrete store and its computed assignment. -/
theorem C10_witness :
    (get_next_job
        (⟨[⟨3, "BOT-Y", "tiktok"⟩], [], [⟨8, none, "h8"⟩],
          [⟨2, 3, "tiktok", "pending", 0, 0, none⟩],
          [⟨4, 2, 8, "new", 0, none, none, ""⟩], []⟩ : DBState) "BOT-Y" 9 =
      ((⟨[⟨3, "BOT-Y", "tiktok"⟩], [], [⟨8, none, "h8"⟩],
          [⟨2, 3, "tiktok", "pending", 0, 0, none⟩],
          [⟨4, 2, 8, "processing", 1, some 9, none, ""⟩], []⟩ : DBState),
        some ⟨4, 2, 8, some "/api/video/h8"⟩)) ∧
    ∃ it ∈ (⟨[⟨3, "BOT-Y", "tiktok"⟩], [], [⟨8, none, "h8"⟩],
          [⟨2, 3, "tiktok", "pending", 0, 0, none⟩],
          [⟨4, 2, 8, "new", 0, none, none, ""⟩], []⟩ : DBState).items,
      it.id = 4 ∧ it.status = "new" ∧
      (⟨[⟨3, "BOT-Y", "tiktok"⟩], [], [⟨8, none, "h8"⟩],
          [⟨2, 3, "tiktok", "pending", 0, 0, none⟩],
          [⟨4, 2, 8, "processing", 1, some 9, none, ""⟩], []⟩ : DBState).items =
        updateItem (⟨[⟨3, "BOT-Y", "tiktok"⟩], [], [⟨8, none, "h8"⟩],
          [⟨2, 3, "tiktok", "pending", 0, 0, none⟩],
          [⟨4, 2, 8, "new", 0, none, none, ""⟩], []⟩ : DBState).items 4
          (fun x => { x with
            status := "processing"
            assigned_at := some 9
            attempt_count := x.attempt_count + 1 }) ∧
      ∀ it' ∈ (⟨[⟨3, "BOT-Y", "tiktok"⟩], [], [⟨8, none, "h8"⟩],
          [⟨2, 3, "tiktok", "pending", 0, 0, none⟩],
          [⟨4, 2, 8, "processing", 1, some 9, none, ""⟩], []⟩ : DBState).items,
        it'.id = 4 → it'.status = "processing" ∧ it'.assigned_at = some 9 :=
  ⟨by decide,
   C10_assignment_commits_transition
     (⟨[⟨3, "BOT-Y", "tiktok"⟩], [], [⟨8, none, "h8"⟩],
        [⟨2, 3, "tiktok", "pending", 0, 0, none⟩],
        [⟨4, 2, 8, "new", 0, none, none, ""⟩], []⟩ : DBState) "BOT-Y" 9
     (⟨[⟨3, "BOT-Y", "tiktok"⟩], [], [⟨8, none, "h8"⟩],
        [⟨2, 3, "tiktok", "pending", 0, 0, none⟩],
        [⟨4, 2, 8, "processing", 1, some 9, none, ""⟩], []⟩ : DBState)
     ⟨4, 2, 8, some "/api/video/h8"⟩ (by decide)⟩

/-- Claim C6, counterexample: for the envelope
`[heartbeat, request_job, report_job(job_id = 999)]` on an empty store (no
job 999 exists), the three responses carry the matching reply tokens in
order, but the third is an `ack`, not an `error` —
`_handle_report_job` ignores `OrderVM.report_job`'s `False` and acknowledges
unconditionally. -/
theorem C6_counterexample :
    ((process_envelope (⟨[], [], [], [], [], []⟩ : DBState)
        ⟨"BOT-X",
          [⟨.heartbeat, "rt_1", ⟨none, none, none⟩⟩,
           ⟨.request_job, "rt_2", ⟨none, none, none⟩⟩,
           ⟨.report_job, "rt_3", ⟨some 999, some "done", none⟩⟩]⟩ 0).2 =
      [createAck "rt_1", createText "rt_2" "Standby - no jobs available",
       createAck "rt_3"]) ∧
    ((process_envelope (⟨[], [], [], [], [], []⟩ : DBState)
        ⟨"BOT-X",
          [⟨.heartbeat, "rt_1", ⟨none, none, none⟩⟩,
           ⟨.request_job, "rt_2", ⟨none, none, none⟩⟩,
           ⟨.report_job, "rt_3", ⟨some 999, some "done", none⟩⟩]⟩ 0).2.map
        (fun r => r.messages.map (fun m => m.type)) =
      [[MsgType.ack], [MsgType.text], [MsgType.ack]]) := by
  decide

/-- Claim C6, amended: for any store and any envelope
`[heartbeat, request_job, report_job(job_id = 999)]`, `process_envelope`
returns three responses whose reply tokens match the events in order; the
third response is an `ack` — a failed report (such as a bogus job id) is
swallowed, never surfaced as an `error` message. -/
theorem C6_envelope_ordering :
    ∀ (db : DBState) (now : Nat) (code rt1 rt2 rt3 : String)
      (st lg : Option String),
      ((process_envelope db
          ⟨code,
            [⟨.heartbeat, rt1, ⟨none, none, none⟩⟩,
             ⟨.request_job, rt2, ⟨none, none, none⟩⟩,
             ⟨.report_job, rt3, ⟨some 999, st, lg⟩⟩]⟩ now).2.map
        (fun r => r.reply_token) = [rt1, rt2, rt3]) ∧
      ((process_envelope db
          ⟨code,
            [⟨.heartbeat, rt1, ⟨none, none, none⟩⟩,
             ⟨.request_job, rt2, ⟨none, none, none⟩⟩,
             ⟨.report_job, rt3, ⟨some 999, st, lg⟩⟩]⟩ now).2.getD 2
          (createAck "")).messages.map (fun m => m.type) = [MsgType.ack] := by
  intro db now code rt1 rt2 rt3 st lg
  unfold process_envelope
  simp only [List.foldl]
  unfold processEvent
  dsimp only
  rcases hreq : handle_request_job db code ⟨.request_job, rt2, ⟨none, none, none⟩⟩ now
    with ⟨db2, r2⟩
  have hr2 : r2.reply_token = rt2 := by
    unfold handle_request_job at hreq
    rcases hg : get_next_job db code now with ⟨dbx, j?⟩
    rw [hg] at hreq
    cases j? with
    | none =>
      have := congrArg Prod.snd hreq
      dsimp only at this
      rw [← this]
      rfl
    | some job =>
      have := congrArg Prod.snd hreq
      dsimp only at this
      rw [← this]
      rfl
  unfold handle_report_job
  dsimp only
  constructor
  · simp [createAck, hr2]
  · simp [createAck]

/-! ## Order Builder invariants (claim C5) -/

/-- The eligible pool is a selection of media rows. -/
theorem eligible_clips_sublist (db : DBState) (cid : Nat) (platform : String)
    (pcode : Option String) :
    (eligible_clips db cid platform pcode).Sublist db.media := by
  unfold eligible_clips
  cases pcode with
  | none => exact List.filter_sublist _
  | some code =>
    dsimp only
    cases db.products.find? (fun p => p.sku == code) with
    | none => exact List.filter_sublist _
    | some product =>
      exact List.Sublist.trans (List.filter_sublist _) (List.filter_sublist _)

/-- What membership in the eligible pool means: a media row of the store, not
posted by this client to this platform, and of the requested product when the
`prod_code` resolves. -/
theorem eligible_clips_mem (db : DBState) (cid : Nat) (platform : String)
    (pcode : Option String) (m : MediaRow)
    (h : m ∈ eligible_clips db cid platform pcode) :
    m ∈ db.media ∧
    (¬ ∃ hr ∈ db.history, hr.client_id = cid ∧ hr.platform = platform ∧
        hr.media_id = m.id) ∧
    (∀ code product, pcode = some code →
        db.products.find? (fun p => p.sku == code) = some product →
        m.product_id = some product.id) := by
  have hbase : ∀ m' : MediaRow,
      m' ∈ db.media.filter (fun mm => !(((db.history.filter (fun hr =>
          hr.client_id == cid && hr.platform == platform)).map
            (fun hr => hr.media_id)).contains mm.id)) →
      m' ∈ db.media ∧ ¬ ∃ hr ∈ db.history, hr.client_id = cid ∧
        hr.platform = platform ∧ hr.media_id = m'.id := by
    intro m' hm'
    have hf := List.mem_filter.mp hm'
    refine ⟨hf.1, ?_⟩
    rintro ⟨hr, hmem, hcid, hplat, hmid⟩
    have hmem_id : m'.id ∈ (db.history.filter (fun hr =>
        hr.client_id == cid && hr.platform == platform)).map (fun hr => hr.media_id) := by
      exact List.mem_map.mpr ⟨hr, List.mem_filter.mpr ⟨hmem, by simp [hcid, hplat]⟩, hmid⟩
    have hcon := hf.2
    simp only [Bool.not_eq_true'] at hcon
    rw [List.contains_eq_any_beq] at hcon
    have hany : ((db.history.filter (fun hr => hr.client_id == cid &&
        hr.platform == platform)).map (fun hr => hr.media_id)).any
          (fun x => m'.id == x) = true := by
      rw [List.any_eq_true]
      exact ⟨m'.id, hmem_id, by simp⟩
    rw [hany] at hcon
    cases hcon
  unfold eligible_clips at h
  cases pcode with
  | none =>
    rcases hbase m h with ⟨h1, h2⟩
    exact ⟨h1, h2, fun code product hc => by cases hc⟩
  | some code =>
    dsimp only at h
    cases hp : db.products.find? (fun p => p.sku == code) with
    | none =>
      rw [hp] at h
      rcases hbase m h with ⟨h1, h2⟩
      refine ⟨h1, h2, fun code' product hc hfind => ?_⟩
      cases hc
      rw [hp] at hfind
      cases hfind
    | some product =>
      rw [hp] at h
      have hf := List.mem_filter.mp h
      rcases hbase m hf.1 with ⟨h1, h2⟩
      refine ⟨h1, h2, fun code' product' hc hfind => ?_⟩
      cases hc
      rw [hp] at hfind
      have hpp := Option.some.inj hfind
      have := hf.2
      simp only [beq_iff_eq] at this
      rw [this, hpp]

/-- Claim C5: every order the Order Builder creates satisfies the eligibility
invariant (no item's media was posted by this client to this platform), Iron
Rule #2 (no two items share a media id), the quantity bound, and the product
filter when the `prod_code` resolves.  `randomised` ranges over all outcomes
of the store's RANDOM ordering (any permutation of the eligible pool); media
primary keys are assumed unique. -/
theorem C5_builder_invariants (db : DBState) (client_code platform : String)
    (quantity : Nat) (prod_code : Option String) (randomised : List MediaRow)
    (now : Nat) (client : ClientRow) (db' : DBState) (newOrder : OrderRow)
    (newItems : List ItemRow)
    (hclient : db.clients.find? (fun c => c.client_code == client_code) = some client)
    (hperm : randomised.Perm (eligible_clips db client.id platform prod_code))
    (hnodup : (db.media.map (fun m => m.id)).Nodup)
    (hco : create_order db client_code platform quantity prod_code randomised now =
      some (db', newOrder, newItems)) :
    (∀ it ∈ newItems, ¬ ∃ hr ∈ db.history, hr.client_id = client.id ∧
        hr.platform = platform ∧ hr.media_id = it.media_id) ∧
    (newItems.map (fun it => it.media_id)).Nodup ∧
    newItems.length ≤ quantity ∧
    (∀ code product, prod_code = some code →
        db.products.find? (fun p => p.sku == code) = some product →
        ∀ it ∈ newItems, ∃ m ∈ db.media, m.id = it.media_id ∧
          m.product_id = some product.id) := by
  unfold create_order at hco
  rw [hclient] at hco
  dsimp only at hco
  split at hco
  · cases hco
  · have heq := Option.some.inj hco
    have hni : newItems = ((List.range (get_available_clips_random db client.id platform
        prod_code quantity randomised).length).zip (get_available_clips_random db client.id
        platform prod_code quantity randomised)).map (fun pc =>
          (⟨nextItemId db + pc.1, nextOrderId db, pc.2.id, "new", 0, none, none, ""⟩ : ItemRow)) := by
      have := congrArg (fun t => t.2.2) heq
      exact this.symm
    have hclips : get_available_clips_random db client.id platform prod_code quantity
        randomised = randomised.take quantity := by
      unfold get_available_clips_random
      rfl
    have hmedia_ids : newItems.map (fun it => it.media_id) =
        (randomised.take quantity).map (fun m => m.id) := by
      rw [hni, hclips, List.map_map]
      have hlen : (randomised.take quantity).length ≤
          (List.range (randomised.take quantity).length).length := by
        rw [List.length_range]
      calc ((List.range (randomised.take quantity).length).zip
              (randomised.take quantity)).map
            ((fun it => it.media_id) ∘ (fun pc =>
              (⟨nextItemId db + pc.1, nextOrderId db, pc.2.id, "new", 0, none, none, ""⟩ : ItemRow)))
          = ((List.range (randomised.take quantity).length).zip
              (randomised.take quantity)).map ((fun m => m.id) ∘ Prod.snd) := by rfl
        _ = (((List.range (randomised.take quantity).length).zip
              (randomised.take quantity)).map Prod.snd).map (fun m => m.id) := by
              rw [List.map_map]
        _ = (randomised.take quantity).map (fun m => m.id) := by
              rw [List.map_snd_zip _ _ hlen]
    have hmem_clip : ∀ it ∈ newItems, ∃ m ∈ eligible_clips db client.id platform prod_code,
        m.id = it.media_id := by
      intro it hit
      have : it.media_id ∈ newItems.map (fun it => it.media_id) :=
        List.mem_map.mpr ⟨it, hit, rfl⟩
      rw [hmedia_ids] at this
      rcases List.mem_map.mp this with ⟨m, hm, hmid⟩
      exact ⟨m, hperm.mem_iff.mp (List.mem_of_mem_take hm), hmid⟩
    refine ⟨?_, ?_, ?_, ?_⟩
    · intro it hit
      rcases hmem_clip it hit with ⟨m, hm, hmid⟩
      have := (eligible_clips_mem db client.id platform prod_code m hm).2.1
      rintro ⟨hr, hmem, h1, h2, h3⟩
      exact this ⟨hr, hmem, h1, h2, by rw [h3, hmid]⟩
    · rw [hmedia_ids]
      have hsub : ((eligible_clips db client.id platform prod_code).map
          (fun m => m.id)).Sublist (db.media.map (fun m => m.id)) :=
        (eligible_clips_sublist db client.id platform prod_code).map _
      have hel_nodup : ((eligible_clips db client.id platform prod_code).map
          (fun m => m.id)).Nodup := hnodup.sublist hsub
      have hr_nodup : (randomised.map (fun m => m.id)).Nodup :=
        ((hperm.map (fun m => m.id)).nodup_iff).mpr hel_nodup
      exact hr_nodup.sublist ((List.take_sublist quantity randomised).map _)
    · have : newItems.length = (newItems.map (fun it => it.media_id)).length := by
        rw [List.length_map]
      rw [this, hmedia_ids, List.length_map]
      exact List.length_take_le _ _
    · intro code product hc hfind it hit
      rcases hmem_clip it hit with ⟨m, hm, hmid⟩
      have hspec := eligible_clips_mem db client.id platform prod_code m hm
      exact ⟨m, hspec.1, hmid, hspec.2.2 code product hc hfind⟩

/-- Witness for C5: one client, one product, three media of which one is
already posted and one belongs to no product; the builder returns the single
eligible product clip. -/
theorem C5_witness :
    (create_order
      (⟨[⟨3, "BOT-X", "youtube"⟩], [⟨11, "SKU-1"⟩],
        [⟨7, some 11, "h7"⟩, ⟨8, some 11, "h8"⟩, ⟨9, none, "h9"⟩],
        [], [], [⟨3, 8, "youtube", none, none⟩]⟩ : DBState)
      "BOT-X" "youtube" 2 (some "SKU-1") [⟨7, some 11, "h7"⟩] 0 =
      some (⟨[⟨3, "BOT-X", "youtube"⟩], [⟨11, "SKU-1"⟩],
        [⟨7, some 11, "h7"⟩, ⟨8, some 11, "h8"⟩, ⟨9, none, "h9"⟩],
        [⟨1, 3, "youtube", "pending", 0, 0, none⟩],
        [⟨1, 1, 7, "new", 0, none, none, ""⟩], [⟨3, 8, "youtube", none, none⟩]⟩,
        ⟨1, 3, "youtube", "pending", 0, 0, none⟩,
        [⟨1, 1, 7, "new", 0, none, none, ""⟩])) ∧
    (∀ it ∈ ([⟨1, 1, 7, "new", 0, none, none, ""⟩] : List ItemRow),
      ¬ ∃ hr ∈ (⟨[⟨3, "BOT-X", "youtube"⟩], [⟨11, "SKU-1"⟩],
        [⟨7, some 11, "h7"⟩, ⟨8, some 11, "h8"⟩, ⟨9, none, "h9"⟩],
        [], [], [⟨3, 8, "youtube", none, none⟩]⟩ : DBState).history,
          hr.client_id = 3 ∧ hr.platform = "youtube" ∧ hr.media_id = it.media_id) ∧
    (([⟨1, 1, 7, "new", 0, none, none, ""⟩] : List ItemRow).map
      (fun it => it.media_id)).Nodup ∧
    ([⟨1, 1, 7, "new", 0, none, none, ""⟩] : List ItemRow).length ≤ 2 :=
  have hmain := C5_builder_invariants
    (⟨[⟨3, "BOT-X", "youtube"⟩], [⟨11, "SKU-1"⟩],
      [⟨7, some 11, "h7"⟩, ⟨8, some 11, "h8"⟩, ⟨9, none, "h9"⟩],
      [], [], [⟨3, 8, "youtube", none, none⟩]⟩ : DBState)
    "BOT-X" "youtube" 2 (some "SKU-1") [⟨7, some 11, "h7"⟩] 0
    ⟨3, "BOT-X", "youtube"⟩
    (⟨[⟨3, "BOT-X", "youtube"⟩], [⟨11, "SKU-1"⟩],
      [⟨7, some 11, "h7"⟩, ⟨8, some 11, "h8"⟩, ⟨9, none, "h9"⟩],
      [⟨1, 3, "youtube", "pending", 0, 0, none⟩],
      [⟨1, 1, 7, "new", 0, none, none, ""⟩], [⟨3, 8, "youtube", none, none⟩]⟩ : DBState)
    ⟨1, 3, "youtube", "pending", 0, 0, none⟩
    [⟨1, 1, 7, "new", 0, none, none, ""⟩]
    (by decide) (by decide) (by decide) (by decide)
  ⟨by decide, hmain.1, hmain.2.1, hmain.2.2.1⟩

/-! ## Queue priority order (claim C7)

Correctness of the CPython binary heap: pushes and pops preserve the heap
shape invariant, the pop always returns the root, and the root is minimal, so
back-to-back dequeues observe ascending priorities.  Ties between equal
priorities follow heap order, which is where the claimed FIFO discipline
fails. -/

theorem hget_set_eq (l : List QJob) (i : Nat) (v : QJob) (h : i < l.length) :
    hget (l.set i v) i = v := by
  simp [hget, List.getD_eq_getElem?_getD, List.getElem?_set_self h]

theorem hget_set_ne (l : List QJob) (i j : Nat) (v : QJob) (h : i ≠ j) :
    hget (l.set i v) j = hget l j := by
  simp [hget, List.getD_eq_getElem?_getD, List.getElem?_set, h]

theorem hget_mem (l : List QJob) (i : Nat) (h : i < l.length) : hget l i ∈ l := by
  rw [hget, List.getD_eq_getElem?_getD, List.getElem?_eq_getElem h]
  exact List.getElem_mem h

theorem hget_append_lt (l₁ l₂ : List QJob) (i : Nat) (h : i < l₁.length) :
    hget (l₁ ++ l₂) i = hget l₁ i := by
  rw [hget, hget, List.getD_eq_getElem?_getD, List.getD_eq_getElem?_getD,
    List.getElem?_append, if_pos h]

theorem hget_dropLast (l : List QJob) (i : Nat) (h : i < l.length - 1) :
    hget l.dropLast i = hget l i := by
  have h1 : i < l.dropLast.length := by
    rw [List.length_dropLast]; exact h
  have h2 : i < l.length := by omega
  rw [hget, hget, List.getD_eq_getElem?_getD, List.getD_eq_getElem?_getD,
    List.getElem?_eq_getElem h1, List.getElem?_eq_getElem h2]
  simp [List.getElem_dropLast]

theorem length_siftdownAux (fuel : Nat) :
    ∀ (l : List QJob) (s p : Nat) (x : QJob),
      (siftdownAux fuel l s p x).length = l.length := by
  induction fuel with
  | zero => intro l s p x; simp [siftdownAux]
  | succ fuel ih =>
    intro l s p x
    rw [siftdownAux]
    dsimp only
    split
    · split
      · rw [ih]; simp
      · simp
    · simp

theorem length_siftupAux (fuel : Nat) :
    ∀ (l : List QJob) (e s p : Nat) (x : QJob),
      (siftupAux fuel l e s p x).length = l.length := by
  induction fuel with
  | zero => intro l e s p x; rw [siftupAux, length_siftdownAux]; simp
  | succ fuel ih =>
    intro l e s p x
    rw [siftupAux]
    dsimp only
    split
    · split
      · rw [ih]; simp
      · rw [ih]; simp
    · rw [length_siftdownAux]; simp

theorem mem_siftdownAux (fuel : Nat) :
    ∀ (l : List QJob) (p : Nat) (x y : QJob), p < l.length →
      y ∈ siftdownAux fuel l 0 p x → y ∈ l ∨ y = x := by
  induction fuel with
  | zero =>
    intro l p x y _ hy
    rw [siftdownAux] at hy
    exact List.mem_or_eq_of_mem_set hy
  | succ fuel ih =>
    intro l p x y hp hy
    rw [siftdownAux] at hy
    dsimp only at hy
    split at hy
    · split at hy
      · rename_i hpos _
        have hpp : (p - 1) / 2 < l.length := by omega
        have hpl : (p - 1) / 2 < (l.set p (hget l ((p - 1) / 2))).length := by
          rw [List.length_set]; omega
        rcases ih _ _ _ _ hpl hy with hmem | rfl
        · rcases List.mem_or_eq_of_mem_set hmem with h | rfl
          · exact Or.inl h
          · exact Or.inl (hget_mem l _ hpp)
        · exact Or.inr rfl
      · exact List.mem_or_eq_of_mem_set hy
    · exact List.mem_or_eq_of_mem_set hy

theorem mem_siftupAux (fuel : Nat) :
    ∀ (l : List QJob) (e p : Nat) (x y : QJob), p < l.length → e ≤ l.length →
      y ∈ siftupAux fuel l e 0 p x → y ∈ l ∨ y = x := by
  induction fuel with
  | zero =>
    intro l e p x y hp _ hy
    rw [siftupAux] at hy
    have hp' : p < (l.set p x).length := by rw [List.length_set]; exact hp
    rcases mem_siftdownAux p _ _ _ _ hp' hy with hmem | rfl
    · exact List.mem_or_eq_of_mem_set hmem
    · exact Or.inr rfl
  | succ fuel ih =>
    intro l e p x y hp he hy
    rw [siftupAux] at hy
    dsimp only at hy
    split at hy
    · rename_i hch
      split at hy
      · rename_i hcond
        have hcond' := hcond
        simp only [Bool.and_eq_true, decide_eq_true_eq] at hcond'
        obtain ⟨hlt, _⟩ := hcond'
        have hrl : 2 * p + 2 < l.length := by omega
        have h1 : 2 * p + 2 < (l.set p (hget l (2 * p + 2))).length := by
          rw [List.length_set]; omega
        have h2 : e ≤ (l.set p (hget l (2 * p + 2))).length := by
          rw [List.length_set]; omega
        rcases ih _ _ _ _ _ h1 h2 hy with hmem | rfl
        · rcases List.mem_or_eq_of_mem_set hmem with h | rfl
          · exact Or.inl h
          · exact Or.inl (hget_mem l _ hrl)
        · exact Or.inr rfl
      · have hcl : 2 * p + 1 < l.length := by omega
        have h1 : 2 * p + 1 < (l.set p (hget l (2 * p + 1))).length := by
          rw [List.length_set]; omega
        have h2 : e ≤ (l.set p (hget l (2 * p + 1))).length := by
          rw [List.length_set]; omega
        rcases ih _ _ _ _ _ h1 h2 hy with hmem | rfl
        · rcases List.mem_or_eq_of_mem_set hmem with h | rfl
          · exact Or.inl h
          · exact Or.inl (hget_mem l _ hcl)
        · exact Or.inr rfl
    · have hp' : p < (l.set p x).length := by rw [List.length_set]; exact hp
      rcases mem_siftdownAux p _ _ _ _ hp' hy with hmem | rfl
      · exact List.mem_or_eq_of_mem_set hmem
      · exact Or.inr rfl

/-- The binary-heap shape invariant of `heapq`: every entry is at least its
parent (entry `i`'s parent sits at `(i - 1) / 2`). -/
def HeapInv (l : List QJob) : Prop :=
  ∀ i, 0 < i → i < l.length → (hget l ((i - 1) / 2)).priority ≤ (hget l i).priority

/-- Invariant carried while `_siftdown` bubbles `x` up with the hole at
`pos`: all parent/child pairs away from the hole are ordered, the hole's
children dominate `x`, and the hole's children dominate the hole's parent. -/
def HoleInvD (l : List QJob) (pos : Nat) (x : QJob) : Prop :=
  (∀ i, 0 < i → i < l.length → i ≠ pos → (i - 1) / 2 ≠ pos →
      (hget l ((i - 1) / 2)).priority ≤ (hget l i).priority) ∧
  (∀ i, 0 < i → i < l.length → (i - 1) / 2 = pos →
      x.priority ≤ (hget l i).priority) ∧
  (∀ i, 0 < i → i < l.length → (i - 1) / 2 = pos → 0 < pos →
      (hget l ((pos - 1) / 2)).priority ≤ (hget l i).priority)

/-- Writing `x` into the hole restores the heap invariant, provided the
hole's parent (if any) is at most `x`. -/
theorem setInv_of_hole (l : List QJob) (pos : Nat) (x : QJob) (hp : pos < l.length)
    (hinv : HoleInvD l pos x)
    (hparent : 0 < pos → (hget l ((pos - 1) / 2)).priority ≤ x.priority) :
    HeapInv (l.set pos x) := by
  intro i h0 hlen
  rw [List.length_set] at hlen
  by_cases hip : i = pos
  · subst hip
    have hne : i ≠ (i - 1) / 2 := by omega
    rw [hget_set_ne l i _ x hne, hget_set_eq l i x hp]
    exact hparent h0
  · by_cases hpar : (i - 1) / 2 = pos
    · rw [hpar, hget_set_eq l pos x hp, hget_set_ne l pos i x (fun he => hip he.symm)]
      exact hinv.2.1 i h0 hlen hpar
    · rw [hget_set_ne l pos _ x (fun he => hpar he.symm),
        hget_set_ne l pos i x (fun he => hip he.symm)]
      exact hinv.1 i h0 hlen hip hpar

/-- CPython `_siftdown` restores the heap invariant from a hole invariant
(all call sites use `startpos = 0` and `fuel ≥ pos`). -/
theorem siftdownAux_inv (fuel : Nat) :
    ∀ (l : List QJob) (pos : Nat) (x : QJob), pos < l.length → pos ≤ fuel →
      HoleInvD l pos x → HeapInv (siftdownAux fuel l 0 pos x) := by
  induction fuel with
  | zero =>
    intro l pos x hp hf hinv
    rw [siftdownAux]
    have hpos0 : pos = 0 := by omega
    subst hpos0
    exact setInv_of_hole l 0 x hp hinv (fun h => absurd h (by omega))
  | succ fuel ih =>
    intro l pos x hp hf hinv
    rw [siftdownAux]
    dsimp only
    split
    · rename_i hpos
      split
      · rename_i hlt
        apply ih
        · rw [List.length_set]; omega
        · omega
        · refine ⟨?_, ?_, ?_⟩
          · intro i h0 hlen hne hnpar
            rw [List.length_set] at hlen
            by_cases hipos : i = pos
            · subst hipos
              exact absurd rfl hnpar
            · by_cases hpi : (i - 1) / 2 = pos
              · rw [hpi, hget_set_eq l pos _ hp,
                  hget_set_ne l pos i _ (fun he => hipos he.symm)]
                exact hinv.2.2 i h0 hlen hpi hpos
              · rw [hget_set_ne l pos _ _ (fun he => hpi he.symm),
                  hget_set_ne l pos i _ (fun he => hipos he.symm)]
                exact hinv.1 i h0 hlen hipos hpi
          · intro i h0 hlen hpar
            rw [List.length_set] at hlen
            by_cases hipos : i = pos
            · subst hipos
              rw [hget_set_eq l i _ hp]
              exact Nat.le_of_lt hlt
            · rw [hget_set_ne l pos i _ (fun he => hipos he.symm)]
              have hppne : (i - 1) / 2 ≠ pos := by omega
              have h1 := hinv.1 i h0 hlen hipos hppne
              rw [hpar] at h1
              exact Nat.le_of_lt (Nat.lt_of_lt_of_le hlt h1)
          · intro i h0 hlen hpar hpp0
            rw [List.length_set] at hlen
            have hgpne : ((pos - 1) / 2 - 1) / 2 ≠ pos := by omega
            rw [hget_set_ne l pos _ _ (fun he => hgpne he.symm)]
            have hkey : (hget l (((pos - 1) / 2 - 1) / 2)).priority ≤
                (hget l ((pos - 1) / 2)).priority :=
              hinv.1 ((pos - 1) / 2) hpp0 (by omega) (by omega) hgpne
            by_cases hipos : i = pos
            · subst hipos
              rw [hget_set_eq l i _ hp]
              exact hkey
            · rw [hget_set_ne l pos i _ (fun he => hipos he.symm)]
              have hppne : (i - 1) / 2 ≠ pos := by omega
              have h1 := hinv.1 i h0 hlen hipos hppne
              rw [hpar] at h1
              exact Nat.le_trans hkey h1
      · rename_i hge
        exact setInv_of_hole l pos x hp hinv (fun _ => Nat.le_of_not_lt hge)
    · rename_i hnpos
      have hpos0 : pos = 0 := by omega
      subst hpos0
      exact setInv_of_hole l 0 x hp hinv (fun h => absurd h (by omega))

/-- `heappush` preserves the heap invariant. -/
theorem heappush_inv (heap : List QJob) (item : QJob) (h : HeapInv heap) :
    HeapInv (heappush heap item) := by
  unfold heappush
  apply siftdownAux_inv
  · simp
  · exact Nat.le_refl _
  · refine ⟨?_, ?_, ?_⟩
    · intro i h0 hlen hne _
      rw [List.length_append, List.length_singleton] at hlen
      have hi : i < heap.length := by omega
      have hpar : (i - 1) / 2 < heap.length := by omega
      rw [hget_append_lt _ _ _ hpar, hget_append_lt _ _ _ hi]
      exact h i h0 hi
    · intro i h0 hlen hpar
      rw [List.length_append, List.length_singleton] at hlen
      exfalso
      omega
    · intro i h0 hlen hpar _
      rw [List.length_append, List.length_singleton] at hlen
      exfalso
      omega

/-- Invariant carried while `_siftup` walks the hole at `pos` down: all
parent/child pairs away from the hole are ordered, and the hole's children
dominate the hole's parent. -/
def SiftupInvD (l : List QJob) (pos : Nat) : Prop :=
  (∀ i, 0 < i → i < l.length → i ≠ pos → (i - 1) / 2 ≠ pos →
      (hget l ((i - 1) / 2)).priority ≤ (hget l i).priority) ∧
  (∀ i, 0 < i → i < l.length → (i - 1) / 2 = pos → 0 < pos →
      (hget l ((pos - 1) / 2)).priority ≤ (hget l i).priority)

/-- Moving the smaller child `c` of the hole `pos` up into the hole keeps the
sift-up invariant, with the hole now at `c`. -/
theorem siftupStep (l : List QJob) (pos c : Nat) (hp : pos < l.length)
    (hc : c < l.length) (hc0 : 0 < c) (hcc : (c - 1) / 2 = pos)
    (hmin : ∀ s, 0 < s → s < l.length → (s - 1) / 2 = pos →
      (hget l c).priority ≤ (hget l s).priority)
    (hinv : SiftupInvD l pos) :
    SiftupInvD (l.set pos (hget l c)) c := by
  have hcpos : pos < c := by omega
  constructor
  · intro i h0 hlen hic hipar
    rw [List.length_set] at hlen
    by_cases hipos : i = pos
    · subst hipos
      have hppne : i ≠ (i - 1) / 2 := by omega
      rw [hget_set_ne l i _ _ hppne, hget_set_eq l i _ hp]
      exact hinv.2 c hc0 hc hcc h0
    · by_cases hpari : (i - 1) / 2 = pos
      · rw [hpari, hget_set_eq l pos _ hp,
          hget_set_ne l pos i _ (fun he => hipos he.symm)]
        exact hmin i h0 hlen hpari
      · rw [hget_set_ne l pos _ _ (fun he => hpari he.symm),
          hget_set_ne l pos i _ (fun he => hipos he.symm)]
        exact hinv.1 i h0 hlen hipos hpari
  · intro i h0 hlen hpari _
    rw [List.length_set] at hlen
    rw [hcc, hget_set_eq l pos _ hp]
    have hine : i ≠ pos := by omega
    rw [hget_set_ne l pos i _ (fun he => hine he.symm)]
    have h1 := hinv.1 i h0 hlen hine (by omega)
    rw [hpari] at h1
    exact h1

/-- CPython `_siftup` restores the heap invariant (call sites use
`startpos = 0`, `endpos` equal to the list length, and `fuel = endpos`). -/
theorem siftupAux_inv (fuel : Nat) :
    ∀ (l : List QJob) (pos : Nat) (x : QJob), pos < l.length →
      l.length ≤ fuel + pos → SiftupInvD l pos →
      HeapInv (siftupAux fuel l l.length 0 pos x) := by
  induction fuel with
  | zero =>
    intro l pos x hp hf hinv
    exfalso
    omega
  | succ fuel ih =>
    intro l pos x hp hf hinv
    rw [siftupAux]
    dsimp only
    split
    · rename_i hch
      split
      · rename_i hcond
        simp only [Bool.and_eq_true, decide_eq_true_eq, Bool.not_eq_true'] at hcond
        obtain ⟨hrlt, hcmp⟩ := hcond
        have hrl : 2 * pos + 1 + 1 < l.length := hrlt
        have hmin : ∀ s, 0 < s → s < l.length → (s - 1) / 2 = pos →
            (hget l (2 * pos + 1 + 1)).priority ≤ (hget l s).priority := by
          intro s _ _ hs
          have hge : (hget l (2 * pos + 1 + 1)).priority ≤
              (hget l (2 * pos + 1)).priority := by
            have := of_decide_eq_false hcmp
            omega
          have : s = 2 * pos + 1 ∨ s = 2 * pos + 2 := by omega
          rcases this with rfl | rfl
          · exact hge
          · exact Nat.le_refl _
        have hlenstep : l.length = (l.set pos (hget l (2 * pos + 1 + 1))).length := by
          rw [List.length_set]
        rw [hlenstep]
        apply ih
        · rw [List.length_set]; omega
        · rw [List.length_set]; omega
        · exact siftupStep l pos (2 * pos + 1 + 1) hp (by omega) (by omega)
            (by omega) hmin hinv
      · rename_i hcond
        simp only [Bool.and_eq_true, decide_eq_true_eq, Bool.not_eq_true',
          not_and, Bool.not_eq_false] at hcond
        have hmin : ∀ s, 0 < s → s < l.length → (s - 1) / 2 = pos →
            (hget l (2 * pos + 1)).priority ≤ (hget l s).priority := by
          intro s _ hsl hs
          have : s = 2 * pos + 1 ∨ s = 2 * pos + 1 + 1 := by omega
          rcases this with rfl | rfl
          · exact Nat.le_refl _
          · have := hcond hsl
            exact Nat.le_of_lt this
        have hlenstep : l.length = (l.set pos (hget l (2 * pos + 1))).length := by
          rw [List.length_set]
        rw [hlenstep]
        apply ih
        · rw [List.length_set]; omega
        · rw [List.length_set]; omega
        · exact siftupStep l pos (2 * pos + 1) hp (by omega) (by omega)
            (by omega) hmin hinv
    · rename_i hch
      apply siftdownAux_inv
      · rw [List.length_set]; exact hp
      · exact Nat.le_refl _
      · refine ⟨?_, ?_, ?_⟩
        · intro i h0 hlen hne hnpar
          rw [List.length_set] at hlen
          rw [hget_set_ne l pos _ _ (fun he => hnpar he.symm),
            hget_set_ne l pos i _ (fun he => hne he.symm)]
          exact hinv.1 i h0 hlen hne hnpar
        · intro i h0 hlen hpar
          rw [List.length_set] at hlen
          exfalso
          omega
        · intro i h0 hlen hpar _
          rw [List.length_set] at hlen
          exfalso
          omega

/-- `heappop` preserves the heap invariant. -/
theorem heappop_inv (heap : List QJob) (j : QJob) (h' : List QJob)
    (hinv : HeapInv heap) (h : heappop heap = some (j, h')) : HeapInv h' := by
  unfold heappop at h
  split at h
  · cases h
  · dsimp only at h
    split at h
    · have h2 := congrArg Prod.snd (Option.some.inj h)
      dsimp only at h2
      rw [← h2]
      intro i h0 hlen
      simp at hlen
    · rename_i hrne
      have h2 := congrArg Prod.snd (Option.some.inj h)
      dsimp only at h2
      rw [← h2]
      have hlen0 : 0 < heap.dropLast.length := by
        cases hl : heap.dropLast with
        | nil => rw [hl] at hrne; simp at hrne
        | cons a as => simp
      have hstep : heap.dropLast.length =
          (heap.dropLast.set 0 (hget heap (heap.length - 1))).length := by
        rw [List.length_set]
      rw [hstep]
      apply siftupAux_inv
      · rw [List.length_set]; exact hlen0
      · omega
      · constructor
        · intro i h0 hlen hi0 hpar0
          rw [List.length_set, List.length_dropLast] at hlen
          rw [hget_set_ne _ 0 _ _ (fun he => hpar0 he.symm),
            hget_set_ne _ 0 i _ (fun he => hi0 he.symm),
            hget_dropLast _ _ (by omega), hget_dropLast _ _ hlen]
          exact hinv i h0 (by omega)
        · intro i _ _ _ hpos0
          exact absurd hpos0 (by omega)

/-- `heappop` returns the root. -/
theorem heappop_root (heap : List QJob) (j : QJob) (h' : List QJob)
    (h : heappop heap = some (j, h')) : j = hget heap 0 := by
  unfold heappop at h
  split at h
  · cases h
  · rename_i hne
    dsimp only at h
    split at h
    · rename_i hre
      have h1 := congrArg Prod.fst (Option.some.inj h)
      dsimp only at h1
      rw [← h1]
      have hL : heap.length = 1 := by
        have hd : heap.dropLast = [] := by
          cases hl : heap.dropLast with
          | nil => rfl
          | cons a as => rw [hl] at hre; simp at hre
        have := congrArg List.length hd
        rw [List.length_dropLast] at this
        simp only [List.length_nil] at this
        have hne' : heap ≠ [] := by
          cases heap with
          | nil => simp at hne
          | cons a as => exact List.cons_ne_nil a as
        have : 0 < heap.length := List.length_pos.mpr hne'
        omega
      rw [hL]
    · rename_i hrne
      have h1 := congrArg Prod.fst (Option.some.inj h)
      dsimp only at h1
      rw [← h1]
      have hlen0 : 0 < heap.dropLast.length := by
        cases hl : heap.dropLast with
        | nil => rw [hl] at hrne; simp at hrne
        | cons a as => simp
      rw [List.length_dropLast] at hlen0
      exact hget_dropLast heap 0 hlen0

/-- The post-pop heap only holds entries of the pre-pop heap. -/
theorem heappop_subset (heap : List QJob) (j : QJob) (h' : List QJob)
    (h : heappop heap = some (j, h')) : ∀ x ∈ h', x ∈ heap := by
  unfold heappop at h
  split at h
  · cases h
  · rename_i hne
    dsimp only at h
    split at h
    · have h2 := congrArg Prod.snd (Option.some.inj h)
      dsimp only at h2
      rw [← h2]
      intro x hx
      simp at hx
    · rename_i hrne
      have h2 := congrArg Prod.snd (Option.some.inj h)
      dsimp only at h2
      rw [← h2]
      intro x hx
      have hlen0 : 0 < heap.dropLast.length := by
        cases hl : heap.dropLast with
        | nil => rw [hl] at hrne; simp at hrne
        | cons a as => simp
      have hE : 0 < heap.length := by
        rw [List.length_dropLast] at hlen0; omega
      have hlast : hget heap (heap.length - 1) ∈ heap := hget_mem heap _ (by omega)
      have hx' := mem_siftupAux heap.dropLast.length _ _ 0 _ x
        (by rw [List.length_set]; exact hlen0) (by rw [List.length_set]) hx
      rcases hx' with hmem | rfl
      · rcases List.mem_or_eq_of_mem_set hmem with hmem2 | rfl
        · exact List.mem_of_mem_dropLast hmem2
        · exact hlast
      · exact hlast

/-- The smallest element of the heap: the root is minimal. -/
theorem root_min (l : List QJob) (hinv : HeapInv l) :
    ∀ i, i < l.length → (hget l 0).priority ≤ (hget l i).priority := by
  intro i
  induction i using Nat.strong_induction_on with
  | _ i ih =>
    intro hi
    cases Nat.eq_zero_or_pos i with
    | inl h => subst h; exact Nat.le_refl _
    | inr h0 =>
      have hpar : (i - 1) / 2 < i := by omega
      exact Nat.le_trans (ih _ hpar (by omega)) (hinv i h0 hi)

/-- The popped job is at most every entry of the heap. -/
theorem heappop_min (heap : List QJob) (j : QJob) (h' : List QJob)
    (hinv : HeapInv heap) (h : heappop heap = some (j, h')) :
    ∀ x ∈ heap, j.priority ≤ x.priority := by
  intro x hx
  rcases List.mem_iff_getElem.mp hx with ⟨i, hi, rfl⟩
  have hgi : hget heap i = heap[i] := by
    rw [hget, List.getD_eq_getElem?_getD, List.getElem?_eq_getElem hi]
    rfl
  rw [heappop_root heap j h' h, ← hgi]
  exact root_min heap hinv i hi

/-- Every job observed by repeated pops lives in the starting heap. -/
theorem popAll_subset (fuel : Nat) :
    ∀ (heap : List QJob), ∀ x ∈ popAll heap fuel, x ∈ heap := by
  induction fuel with
  | zero => intro heap x hx; cases hx
  | succ fuel ih =>
    intro heap x hx
    rw [popAll] at hx
    cases hpop : heappop heap with
    | none => rw [hpop] at hx; cases hx
    | some jh =>
      rw [hpop] at hx
      rcases List.mem_cons.mp hx with rfl | hx'
      · have : heappop heap = some (jh.1, jh.2) := by rw [hpop]
        have hj := heappop_root heap jh.1 jh.2 this
        rw [hj]
        by_cases hL : 0 < heap.length
        · exact hget_mem heap 0 hL
        · exfalso
          have : heap = [] := by
            cases heap with
            | nil => rfl
            | cons a as => simp at hL
          rw [this] at hpop
          rw [heappop] at hpop
          simp at hpop
      · exact heappop_subset heap jh.1 jh.2 (by rw [hpop]) x (ih jh.2 x hx')

/-- Repeated pops from a well-formed heap observe ascending priorities. -/
theorem popAll_sorted (fuel : Nat) :
    ∀ (heap : List QJob), HeapInv heap →
      (popAll heap fuel).Pairwise (fun a b => a.priority ≤ b.priority) := by
  induction fuel with
  | zero => intro heap _; exact List.Pairwise.nil
  | succ fuel ih =>
    intro heap hinv
    rw [popAll]
    cases hpop : heappop heap with
    | none => exact List.Pairwise.nil
    | some jh =>
      refine List.Pairwise.cons ?_ (ih jh.2 (heappop_inv heap jh.1 jh.2 hinv (by rw [hpop])))
      intro y hy
      have hy2 := popAll_subset fuel jh.2 y hy
      have hy3 := heappop_subset heap jh.1 jh.2 (by rw [hpop]) y hy2
      exact heappop_min heap jh.1 jh.2 hinv (by rw [hpop]) y hy3

/-- Enqueueing any priority sequence keeps the heap well-formed. -/
theorem heapInv_enqueueAll (ps : List Nat) :
    ∀ (q : QueueState), HeapInv q.heap → HeapInv (enqueueAll q ps).heap := by
  induction ps with
  | nil => intro q h; exact h
  | cons p rest ih =>
    intro q h
    exact ih (enqueue q p) (heappush_inv q.heap _ h)

/-- Claim C7, counterexample: on the spec's own P9 input `[5, 1, 5, 10, 1]`
the dequeued priorities are ascending, but the tie between the two
priority-5 jobs is broken by heap order, not FIFO: the job enqueued third
(`seq = 2`) comes out before the one enqueued first (`seq = 0`).  `Job`
compares by `priority` alone (every other dataclass field is
`compare=False`), and the CPython heap is not stable. -/
theorem C7_counterexample :
    ((dequeueAll (enqueueAll emptyQueue [5, 1, 5, 10, 1])).map
        (fun j => (j.priority, j.seq)) =
      [(1, 1), (1, 4), (5, 2), (5, 0), (10, 3)]) ∧
    ¬ fifoTieBreak (dequeueAll (enqueueAll emptyQueue [5, 1, 5, 10, 1])) := by
  decide

/-- Claim C7, amended: back-to-back dequeues after any enqueue sequence
observe ascending priority values (lower value first) — in particular
`[5, 1, 5, 10, 1]` dequeues as `[1, 1, 5, 5, 10]` — but ties between equal
priorities follow binary-heap order, not FIFO insertion order (see the
counterexample). -/
theorem C7_priority_order :
    (∀ ps : List Nat, (dequeueAll (enqueueAll emptyQueue ps)).Pairwise
        (fun a b => a.priority ≤ b.priority)) ∧
    (dequeueAll (enqueueAll emptyQueue [5, 1, 5, 10, 1])).map (fun j => j.priority) =
      [1, 1, 5, 5, 10] := by
  constructor
  · intro ps
    have hinv : HeapInv (enqueueAll emptyQueue ps).heap :=
      heapInv_enqueueAll ps emptyQueue (by intro i h1 h2; simp [emptyQueue] at h2)
    unfold dequeueAll
    exact List.Pairwise.map _ (fun a b hab => hab)
      (popAll_sorted _ _ hinv)
  · decide

end Mediaverse
